import Mathlib

/-!
Verification of the biblib citation deduplicator (src/dedupe.rs) against its
natural-language specification.

The deduplication engine of src/dedupe.rs is shallowly embedded here:
  * Citation / Date / DuplicateGroup mirror the data model (only the fields
    the deduplicator reads are modelled; the remaining Citation fields are
    never inspected by dedupe.rs and are dropped).  dedupe.rs treats
    date as Option<Date> with year : i32, which is the version its own
    tests and doc examples use.
  * Rust strings are modelled as List Char (the engine only uses char-level
    operations on the fields it normalizes); String wrappers pack the result.
  * Rust's char::is_numeric / char::is_alphanumeric / char::is_whitespace and
    str::to_lowercase are Unicode-table driven.  They are tabulated here
    exactly on the Latin-1 range (U+0000..U+00FF) - the range every theorem
    and every concrete input below stays in - and act as identity / false
    above it; each table's doc comment records this.
  * The strsim jaro / jaro_winkler similarity metrics are an external crate,
    out of the repository; the matcher is parametrized over the two metrics
    (as rational-valued functions) and symmetry of the metrics is taken as a
    hypothesis where a claim needs it (the spec's glossary states both
    metrics are symmetric).
  * HashMap<i32, Vec<&Citation>> iteration order is unspecified in Rust; the
    year buckets are enumerated in first-appearance order of their key, one
    fixed representative of the unspecified orders (the spec guarantees no
    output order).  Parallel mode processes the same buckets independently
    and is modelled by the same sequential fold.
  * Pointer identity (&Citation) of distinct slice elements is modelled by
    the element's (bucket-local) index, which the code itself recovers via
    its citation_to_index pointer map.
-/

/-- Publication date as dedupe.rs consumes it: only the year is read. -/
structure Date where
  year : Int
  month : Option Nat
  day : Option Nat
  deriving Repr, DecidableEq

/-- The fields of biblib's Citation that dedupe.rs reads.  All other fields
(id, authors, issue, pmid, ...) are never inspected by the deduplicator. -/
structure Citation where
  title : String := ""
  journal : Option String := none
  journal_abbr : Option String := none
  date : Option Date := none
  year : Option Int := none
  volume : Option String := none
  pages : Option String := none
  issn : List String := []
  doi : Option String := none
  abstract_text : Option String := none
  deriving Repr, DecidableEq

instance : Inhabited Citation := ⟨{}⟩

/-- Output unit of the engine: one canonical citation plus its duplicates. -/
structure DuplicateGroup where
  unique : Citation
  duplicates : List Citation
  deriving Repr, DecidableEq

/-- Error type of dedupe.rs (payload is the formatted message). -/
inductive DedupeError where
  | InvalidCitation : String → DedupeError
  | ProcessingError : String → DedupeError
  | ConfigError : String → DedupeError
  deriving Repr, DecidableEq

/-- DeduplicatorConfig of dedupe.rs. -/
structure DeduplicatorConfig where
  group_by_year : Bool
  run_in_parallel : Bool
  source_preferences : List String
  deriving Repr, DecidableEq

/-- ASCII digit test (code points 48-57), written on the code point so
arithmetic automation applies; equals Rust's char::is_ascii_digit. -/
def isAsciiDigit (c : Char) : Bool :=
  48 ≤ c.toNat && c.toNat ≤ 57

/-- Rust char::is_whitespace, tabulated for the Latin-1 range (White_Space
code points below U+0100 are exactly 09-0D, 20, 85, A0); above Latin-1 it
returns false.  Every input this development evaluates on is Latin-1. -/
def rustIsWhitespace (c : Char) : Bool :=
  (9 ≤ c.toNat && c.toNat ≤ 13) || c.toNat = 32 || c.toNat = 133 || c.toNat = 160

/-- Rust char::is_numeric (general categories Nd, Nl, No), tabulated for the
Latin-1 range: the ASCII digits plus SUPERSCRIPT TWO/THREE/ONE (B2, B3, B9)
and the vulgar fractions (BC, BD, BE); above Latin-1 it returns false.
Every input this development evaluates on is Latin-1. -/
def rustIsNumeric (c : Char) : Bool :=
  isAsciiDigit c || c.toNat = 0xB2 || c.toNat = 0xB3 || c.toNat = 0xB9 ||
    c.toNat = 0xBC || c.toNat = 0xBD || c.toNat = 0xBE

/-- Rust char::is_alphanumeric (Alphabetic or Nd/Nl/No), tabulated for the
Latin-1 range: ASCII letters and digits, the ordinals AA and BA, MICRO SIGN
B5, the Latin-1 letters C0-D6, D8-F6, F8-FF, and the Latin-1 numerics of
rustIsNumeric; above Latin-1 it returns false.  Every input this
development evaluates on is Latin-1. -/
def rustIsAlphanumeric (c : Char) : Bool :=
  c.isAlpha || isAsciiDigit c ||
    c.toNat = 0xAA || c.toNat = 0xB5 || c.toNat = 0xBA ||
    c.toNat = 0xB2 || c.toNat = 0xB3 || c.toNat = 0xB9 ||
    c.toNat = 0xBC || c.toNat = 0xBD || c.toNat = 0xBE ||
    (0xC0 ≤ c.toNat && c.toNat ≤ 0xD6) ||
    (0xD8 ≤ c.toNat && c.toNat ≤ 0xF6) ||
    (0xF8 ≤ c.toNat && c.toNat ≤ 0xFF)

/-- Rust char lowercasing, tabulated for the Latin-1 range (A-Z and the
Latin-1 capitals C0-DE except the multiplication sign D7 map 32 code points
up); identity above Latin-1.  Every input this development evaluates on is
Latin-1, where Unicode lowercasing is this single-char map. -/
def rustToLowerChar (c : Char) : Char :=
  if 'A' ≤ c && c ≤ 'Z' then Char.ofNat (c.toNat + 32)
  else if 0xC0 ≤ c.toNat && c.toNat ≤ 0xDE && c.toNat ≠ 0xD7 then Char.ofNat (c.toNat + 32)
  else c

/-- Rust str::to_lowercase, char by char (no Latin-1 char has a multi-char
lowercase expansion). -/
def rustToLower (l : List Char) : List Char :=
  l.map rustToLowerChar

/-- Rust str::trim: drop whitespace from both ends. -/
def trimChars (l : List Char) : List Char :=
  ((l.dropWhile rustIsWhitespace).reverse.dropWhile rustIsWhitespace).reverse

/-- Rust str::replace with a literal pattern: replace the leftmost
occurrences, left to right, non-overlapping; replacement text is not
rescanned.  (All patterns in dedupe.rs are non-empty.)  The fuel argument
is the remaining input length and only enforces structural termination; it
never runs out when it starts at the input length. -/
def rustReplaceAux (pat repl : List Char) : Nat → List Char → List Char
  | 0, l => l
  | _ + 1, [] => []
  | fuel + 1, c :: rest =>
    if pat ≠ [] ∧ pat.isPrefixOf (c :: rest) then
      repl ++ rustReplaceAux pat repl fuel (rest.drop (pat.length - 1))
    else
      c :: rustReplaceAux pat repl fuel rest

/-- Rust str::replace. -/
def rustReplace (pat repl : List Char) (l : List Char) : List Char :=
  rustReplaceAux pat repl l.length l

/-- The chars kept by format_issn's character strip: ASCII digit, hyphen
(code point 45), or X (code point 88). -/
def issnKeepChar (c : Char) : Bool :=
  isAsciiDigit c || c.toNat = 45 || c.toNat = 88

/-- format_issn's cleaning phase: trim, strip the three annotations, strip
every char that is not an ASCII digit, hyphen or X, trim again. -/
def cleanIssn (s : List Char) : List Char :=
  trimChars ((rustReplace "(Print)".data [] (rustReplace "(Linking)".data []
    (rustReplace "(Electronic)".data [] (trimChars s)))).filter issnKeepChar)

/-- ASCII digit or X (the chars counted by format_issn's digit extraction). -/
def issnDigitX (c : Char) : Bool :=
  isAsciiDigit c || c.toNat = 88

/-- dedupe.rs format_issn on char lists: clean, then accept exactly
9-chars-with-hyphen-at-4 (returned as is) or 8 digits/X (hyphenated). -/
def formatIssnChars (s : List Char) : Option (List Char) :=
  let clean := cleanIssn s
  let digits := clean.filter issnDigitX
  if clean.length = 9 ∧ digits.length = 8 ∧ clean.get? 4 = some '-' then some clean
  else if clean.length = 8 ∧ digits.length = 8 then
    some (digits.take 4 ++ '-' :: digits.drop 4)
  else none

/-- dedupe.rs format_issn. -/
def formatIssn (s : String) : Option String :=
  (formatIssnChars s.data).map String.mk

/-- dedupe.rs normalize_volume on char lists: first maximal run of
char::is_numeric characters, empty if none. -/
def normalizeVolumeChars (s : List Char) : List Char :=
  if s = [] then []
  else
    let numbers := (s.dropWhile (fun c => !rustIsNumeric c)).takeWhile rustIsNumeric
    if numbers = [] then [] else numbers

/-- dedupe.rs normalize_volume. -/
def normalizeVolume (s : String) : String :=
  String.mk (normalizeVolumeChars s.data)

/-- Split-marker prefix extraction: the chars before the first occurrence of
pat (the whole list if pat does not occur) - Rust's
str::split(pat).next().  (pat is non-empty in all uses.) -/
def takeUntilPattern (pat : List Char) : List Char → List Char
  | [] => []
  | c :: rest =>
    if pat ≠ [] ∧ pat.isPrefixOf (c :: rest) then []
    else c :: takeUntilPattern pat rest

/-- dedupe.rs format_journal_name: cut at ". Conference", trim, lowercase,
keep alphanumerics.  None maps to None; an empty string maps to the empty
(present) string. -/
def formatJournalName (s : Option String) : Option String :=
  s.map fun name =>
    String.mk ((rustToLower (trimChars (takeUntilPattern ". Conference".data name.data))).filter
      rustIsAlphanumeric)

/-- The ordered HTML_REPLACEMENTS table of dedupe.rs. -/
def htmlReplacements : List (List Char × List Char) :=
  [("&lt;".data, "<".data), ("&gt;".data, ">".data),
   ("<sup>".data, []), ("</sup>".data, []),
   ("<sub>".data, []), ("</sub>".data, []),
   ("<inf>".data, []), ("</inf>".data, []),
   ("beta".data, "b".data), ("alpha".data, "a".data),
   ("α".data, "a".data), ("ß".data, "b".data), ("γ".data, "g".data)]

/-- dedupe.rs normalize_string on char lists: None on empty input, otherwise
trim, lowercase, apply the replacement table in order, keep alphanumerics. -/
def normalizeStringChars (s : List Char) : Option (List Char) :=
  if s = [] then none
  else
    some ((htmlReplacements.foldl (fun acc pr => rustReplace pr.1 pr.2 acc)
      (rustToLower (trimChars s))).filter rustIsAlphanumeric)

/-- dedupe.rs normalize_string. -/
def normalizeString (s : String) : Option String :=
  (normalizeStringChars s.data).map String.mk

/-- Hex digit recognizer of the UNICODE_REGEX character class [0-9A-Fa-f]. -/
def isHexDigitChar (c : Char) : Bool :=
  c.isDigit || ('a' ≤ c && c ≤ 'f') || ('A' ≤ c && c ≤ 'F')

/-- Value of one hex digit. -/
def hexDigitVal (c : Char) : Nat :=
  if c.isDigit then c.toNat - '0'.toNat
  else if 'a' ≤ c && c ≤ 'f' then c.toNat - 'a'.toNat + 10
  else if 'A' ≤ c && c ≤ 'F' then c.toNat - 'A'.toNat + 10
  else 0

/-- Numeric value of a hex digit run (u32::from_str_radix without the
overflow cutoff; the caller checks the u32 bound). -/
def hexToNat (l : List Char) : Nat :=
  l.foldl (fun acc c => acc * 16 + hexDigitVal c) 0

/-- dedupe.rs convert_unicode_string: replace every match of the regex
<U\x7b+\x7d([0-9A-Fa-f]+)> by the code point it denotes when it fits in u32
and is a valid char, keeping the matched text otherwise.  A greedy hex run
not followed by a closing angle is no match and scanning resumes one char
further, exactly as the leftmost regex scan does.  The fuel argument only
enforces structural termination. -/
def convertUnicodeAux : Nat → List Char → List Char
  | 0, l => l
  | _ + 1, [] => []
  | fuel + 1, '<' :: 'U' :: '+' :: rest2 =>
    let hex := rest2.takeWhile isHexDigitChar
    let rest3 := rest2.drop hex.length
    if hex.isEmpty then '<' :: convertUnicodeAux fuel ('U' :: '+' :: rest2)
    else if rest3.head? = some '>' then
      let v := hexToNat hex
      if v < 4294967296 ∧ v.isValidChar then
        Char.ofNat v :: convertUnicodeAux fuel rest3.tail
      else '<' :: 'U' :: '+' :: (hex ++ '>' :: convertUnicodeAux fuel rest3.tail)
    else '<' :: convertUnicodeAux fuel ('U' :: '+' :: rest2)
  | fuel + 1, c :: rest => c :: convertUnicodeAux fuel rest

/-- The scan entry point: fuel is the input length (each step consumes at
least one character, so the fuel never runs out). -/
def convertUnicodeChars (l : List Char) : List Char :=
  convertUnicodeAux l.length l

/-- dedupe.rs convert_unicode_string. -/
def convertUnicodeString (s : String) : String :=
  String.mk (convertUnicodeChars s.data)

/-- The preprocessed view dedupe.rs builds per citation in a bucket. -/
structure PreprocessedCitation where
  original : Citation
  normalized_title : String
  normalized_journal : Option String
  normalized_journal_abbr : Option String
  normalized_issn : List String
  normalized_volume : String
  deriving Repr, DecidableEq

instance : Inhabited PreprocessedCitation :=
  ⟨⟨{}, "", none, none, [], ""⟩⟩

/-- dedupe.rs get_citation_year: date.year if a date is present, else the
deprecated year field. -/
def getCitationYear (c : Citation) : Option Int :=
  (c.date.map Date.year).or c.year

/-- Option zip + is_some_and equality: both present and equal. -/
def bothSomeEq (a b : Option String) : Bool :=
  match a, b with
  | some x, some y => x == y
  | _, _ => false

/-- dedupe.rs journals_match: full names equal, or abbreviations equal, or
either full name equals the other's abbreviation. -/
def journalsMatch (j1 a1 j2 a2 : Option String) : Bool :=
  bothSomeEq j1 j2 || bothSomeEq a1 a2 || bothSomeEq j1 a2 || bothSomeEq a1 j2

/-- dedupe.rs match_issns: some ISSN of one list equals some of the other. -/
def matchIssns (l1 l2 : List String) : Bool :=
  l1.any fun x => l2.any fun y => x == y

/-- DOI_TITLE_SIMILARITY_THRESHOLD of dedupe.rs: 0.85, written as a reduced
rational literal so comparisons evaluate in the kernel (see the equality
lemma below). -/
def doiTitleSimilarityThreshold : ℚ := ⟨17, 20, by norm_num, by norm_num⟩

/-- NO_DOI_TITLE_SIMILARITY_THRESHOLD of dedupe.rs: 0.93 as a reduced
rational literal. -/
def noDoiTitleSimilarityThreshold : ℚ := ⟨93, 100, by norm_num, by norm_num⟩

/-- The inline 0.99 threshold of dedupe.rs as a reduced rational literal. -/
def veryHighTitleSimilarityThreshold : ℚ := ⟨99, 100, by norm_num, by norm_num⟩

/-- The DOI threshold literal is 0.85. -/
theorem doiTitleSimilarityThreshold_eq : doiTitleSimilarityThreshold = 85 / 100 := by
  rw [show doiTitleSimilarityThreshold = ((17 : ℤ) : ℚ) / ((20 : ℕ) : ℚ) from
    (Rat.num_div_den doiTitleSimilarityThreshold).symm]
  norm_num

/-- The no-DOI threshold literal is 0.93. -/
theorem noDoiTitleSimilarityThreshold_eq : noDoiTitleSimilarityThreshold = 93 / 100 := by
  rw [show noDoiTitleSimilarityThreshold = ((93 : ℤ) : ℚ) / ((100 : ℕ) : ℚ) from
    (Rat.num_div_den noDoiTitleSimilarityThreshold).symm]
  norm_num

/-- The high-confidence threshold literal is 0.99. -/
theorem veryHighTitleSimilarityThreshold_eq :
    veryHighTitleSimilarityThreshold = 99 / 100 := by
  rw [show veryHighTitleSimilarityThreshold = ((99 : ℤ) : ℚ) / ((100 : ℕ) : ℚ) from
    (Rat.num_div_den veryHighTitleSimilarityThreshold).symm]
  norm_num

/-- The journal_match local of the pairwise matcher. -/
def journalMatchB (current other : PreprocessedCitation) : Bool :=
  journalsMatch current.normalized_journal current.normalized_journal_abbr
    other.normalized_journal other.normalized_journal_abbr

/-- The issns_match local of the pairwise matcher. -/
def issnsMatchB (current other : PreprocessedCitation) : Bool :=
  matchIssns current.normalized_issn other.normalized_issn

/-- The volumes_match local of the pairwise matcher: both normalized volumes
non-empty and equal. -/
def volumesMatchB (current other : PreprocessedCitation) : Bool :=
  !current.normalized_volume.isEmpty && !other.normalized_volume.isEmpty &&
    current.normalized_volume == other.normalized_volume

/-- The pages_match local of the pairwise matcher: both raw pages present
and equal. -/
def pagesMatchB (current other : PreprocessedCitation) : Bool :=
  current.original.pages.isSome && other.original.pages.isSome &&
    current.original.pages == other.original.pages

/-- The years_match local of the pairwise matcher: equal optional years
(absent on both sides also matches). -/
def yearsMatchB (current other : PreprocessedCitation) : Bool :=
  getCitationYear current.original == getCitationYear other.original

/-- The with-DOI decision body of the matcher (both DOIs known non-empty;
title similarity is strsim jaro on the normalized titles). -/
def withDoiDecision (jaro : String → String → ℚ)
    (current other : PreprocessedCitation) (doi1 doi2 : String) : Bool :=
  let title_similarity := jaro current.normalized_title other.normalized_title
  (doi1 == doi2 && decide (doiTitleSimilarityThreshold ≤ title_similarity) &&
      (journalMatchB current other || issnsMatchB current other)) ||
    (doi1 == doi2 && decide (veryHighTitleSimilarityThreshold ≤ title_similarity) &&
      (volumesMatchB current other || pagesMatchB current other)) ||
    (decide (veryHighTitleSimilarityThreshold ≤ title_similarity) && yearsMatchB current other &&
      (volumesMatchB current other || pagesMatchB current other) &&
      (journalMatchB current other || issnsMatchB current other))

/-- The without-DOI decision body of the matcher (title similarity is strsim
jaro_winkler on the normalized titles). -/
def withoutDoiDecision (jw : String → String → ℚ)
    (current other : PreprocessedCitation) : Bool :=
  let title_similarity := jw current.normalized_title other.normalized_title
  (decide (noDoiTitleSimilarityThreshold ≤ title_similarity) &&
      (volumesMatchB current other || pagesMatchB current other) &&
      (journalMatchB current other || issnsMatchB current other)) ||
    (decide (veryHighTitleSimilarityThreshold ≤ title_similarity) && yearsMatchB current other &&
      (volumesMatchB current other && pagesMatchB current other))

/-- The pairwise duplicate decision of process_citation_group_with_sources
(dedupe.rs lines 575-615), parametrized over the two external strsim
similarity metrics: the with-DOI branch fires exactly when both sides carry
a non-empty DOI. -/
def isDuplicatePair (jaro jw : String → String → ℚ)
    (current other : PreprocessedCitation) : Bool :=
  match current.original.doi, other.original.doi with
  | some doi1, some doi2 =>
    if !doi1.isEmpty && !doi2.isEmpty then withDoiDecision jaro current other doi1 doi2
    else withoutDoiDecision jw current other
  | _, _ => withoutDoiDecision jw current other

/-- Preprocessing of one citation (dedupe.rs lines 533-557); fails with the
ProcessingError of the source when the title normalizes to None. -/
def preprocessCitation (c : Citation) : Except DedupeError PreprocessedCitation :=
  match normalizeString (convertUnicodeString c.title) with
  | none => .error (.ProcessingError "Failed to normalize title")
  | some t => .ok
    { original := c
      normalized_title := t
      normalized_journal := formatJournalName c.journal
      normalized_journal_abbr := formatJournalName c.journal_abbr
      normalized_issn := c.issn.filterMap formatIssn
      normalized_volume := (c.volume.map normalizeVolume).getD "" }

/-- Preprocess a whole bucket, stopping at the first failure (collect over
Result in Rust). -/
def preprocessAll : List Citation → Except DedupeError (List PreprocessedCitation)
  | [] => .ok []
  | c :: cs =>
    match preprocessCitation c with
    | .error e => .error e
    | .ok p =>
      match preprocessAll cs with
      | .error e => .error e
      | .ok ps => .ok (p :: ps)

/-- The inner scan of the cluster builder for seed i: every other index j
(in increasing order) that is not yet claimed and matches the seed.  The
Rust loop also consults indices it inserted during the same scan, but those
are always strictly below the running j, so membership in the scan's
initial claimed set is an exact model. -/
def matchCandidates (dup : Nat → Nat → Bool) (n i : Nat) (processed : List Nat) : List Nat :=
  (List.range n).filter fun j => if j = i ∨ j ∈ processed then false else dup i j

/-- The outer greedy loop of the cluster builder (dedupe.rs lines 561-657),
with the remaining iteration count as structural fuel.  A seed whose scan
matched nobody is emitted as a singleton and - exactly as in the source -
is NOT inserted into the claimed set; a seed with matches is emitted
together with them and all of them are claimed. -/
def greedyAux (dup : Nat → Nat → Bool) (n : Nat) :
    Nat → Nat → List Nat → List (List Nat)
  | 0, _, _ => []
  | fuel + 1, i, processed =>
    if i < n then
      if i ∈ processed then greedyAux dup n fuel (i + 1) processed
      else
        let g := i :: matchCandidates dup n i processed
        if 1 < g.length then g :: greedyAux dup n fuel (i + 1) (processed ++ g)
        else g :: greedyAux dup n fuel (i + 1) processed
    else []

/-- The index groups the greedy cluster builder emits for a bucket of n
preprocessed citations. -/
def greedyGroups (dup : Nat → Nat → Bool) (n : Nat) : List (List Nat) :=
  greedyAux dup n n 0 []

/-- dedupe.rs: doi.as_ref().is_some_and(|d| !d.is_empty()). -/
def hasNonEmptyDoi (c : Citation) : Bool :=
  match c.doi with
  | some d => !d.isEmpty
  | none => false

/-- select_unique_citation (dedupe.rs lines 468-491).  A group member is a
(citation, bucket-local index) pair: the index stands for the member's
&Citation pointer, which is what the source returns and later compares with
ptr::eq.  (Rust indexes citations[0] and would panic on an empty group; the
function is only ever called on non-empty groups, and the model totalizes
with a default.) -/
def selectPairByAbstract (pairs : List (Citation × Nat)) : Citation × Nat :=
  if pairs.length = 1 then pairs.headD default
  else
    let citations_with_abstract := pairs.filter fun q => q.1.abstract_text.isSome
    match citations_with_abstract with
    | [] => pairs.headD default
    | [q] => q
    | q :: qs => ((q :: qs).find? fun r => hasNonEmptyDoi r.1).getD q

/-- The source-preference scan of select_unique_citation_with_sources:
preferences in priority order, members in group order, first member whose
source-map entry equals the preference. -/
def findPreferredPair (srcMap : Nat → Option (Option String))
    (pairs : List (Citation × Nat)) : List String → Option (Citation × Nat)
  | [] => none
  | p :: ps =>
    match pairs.find? (fun q => srcMap q.2 == some (some p)) with
    | some q => some q
    | none => findPreferredPair srcMap pairs ps

/-- select_unique_citation_with_sources (dedupe.rs lines 493-516). -/
def selectPairWithSources (prefs : List String) (srcMap : Nat → Option (Option String))
    (pairs : List (Citation × Nat)) : Citation × Nat :=
  if pairs.length = 1 then pairs.headD default
  else
    match (if prefs.isEmpty then none else findPreferredPair srcMap pairs prefs) with
    | some q => q
    | none => selectPairByAbstract pairs

/-- The (citation, bucket-local index) pairs of one emitted index group.
The source keeps &Citation pointers and recovers the index through its
citation_to_index map, which enumerates the same bucket - so the recovered
"original" index IS the bucket-local index, faithfully including the case
where the bucket is a year group of a larger input. -/
def groupPairs (pre : List PreprocessedCitation) (ig : List Nat) : List (Citation × Nat) :=
  ig.map fun k => ((pre.getD k default).original, k)

/-- Turn one emitted index group into a DuplicateGroup (dedupe.rs lines
624-656): multi-member groups select a unique via the source-preference /
abstract logic and drop exactly the members whose pointer (= index) is the
unique's; singleton seeds become groups with no duplicates. -/
def buildGroup (prefs : List String) (srcMap : Nat → Option (Option String))
    (pre : List PreprocessedCitation) (ig : List Nat) : DuplicateGroup :=
  let pairs := groupPairs pre ig
  if 1 < pairs.length then
    let u := selectPairWithSources prefs srcMap pairs
    { unique := u.1, duplicates := (pairs.filter fun q => q.2 ≠ u.2).map Prod.fst }
  else
    { unique := (pairs.headD default).1, duplicates := [] }

/-- process_citation_group_with_sources (dedupe.rs lines 518-660). -/
def processCitationGroupWithSources (jaro jw : String → String → ℚ)
    (prefs : List String) (srcMap : Nat → Option (Option String))
    (citations : List Citation) : Except DedupeError (List DuplicateGroup) :=
  match preprocessAll citations with
  | .error e => .error e
  | .ok pre =>
    let dup := fun i j => isDuplicatePair jaro jw (pre.getD i default) (pre.getD j default)
    .ok ((greedyGroups dup pre.length).map (buildGroup prefs srcMap pre))

/-- Year key of a citation: its year, or the sentinel 0 when absent
(dedupe.rs group_by_year, lines 662-672). -/
def yearKey (c : Citation) : Int :=
  (getCitationYear c).getD 0

/-- First-appearance deduplication of a key list (fuel-structured; the fuel
starts at the list length and never runs out). -/
def dedupKeysAux : Nat → List Int → List Int
  | 0, _ => []
  | _ + 1, [] => []
  | fuel + 1, y :: ys => y :: dedupKeysAux fuel (ys.filter fun z => z ≠ y)

/-- First-appearance deduplication of a key list: one fixed enumeration of
the HashMap's (unspecified) key iteration order. -/
def dedupKeys (l : List Int) : List Int :=
  dedupKeysAux l.length l

/-- The year buckets of group_by_year: per distinct key, the citations with
that key in input order (entry().or_default().push preserves input order
within each bucket). -/
def yearBuckets (citations : List Citation) : List (List Citation) :=
  (dedupKeys (citations.map yearKey)).map fun y => citations.filter fun c => yearKey c == y

/-- The ConfigError message of find_duplicates_with_sources. -/
def sourcesExceedMessage (ns nc : Nat) : String :=
  "Number of sources (" ++ toString ns ++ ") exceeds number of citations (" ++
    toString nc ++ "). Each source must correspond to a citation."

/-- The source map of find_duplicates_with_sources: original index to
Some(source) for indexed sources, None for the padded tail; indices beyond
the citation count are absent from the HashMap. -/
def buildSourceMap (n : Nat) (sources : List String) : Nat → Option (Option String) :=
  fun idx => if idx < n then some (sources.get? idx) else none

/-- Sequential bucket processing with first-error propagation.  Parallel
mode (rayon collect over Result) processes the same independent buckets
and is modelled by the same fold; only the undocumented output order can
differ. -/
def processBucketList (jaro jw : String → String → ℚ) (prefs : List String)
    (srcMap : Nat → Option (Option String)) :
    List (List Citation) → Except DedupeError (List DuplicateGroup)
  | [] => .ok []
  | b :: bs =>
    match processCitationGroupWithSources jaro jw prefs srcMap b with
    | .error e => .error e
    | .ok gs =>
      match processBucketList jaro jw prefs srcMap bs with
      | .error e => .error e
      | .ok rest => .ok (gs ++ rest)

/-- find_duplicates_with_sources (dedupe.rs lines 401-460). -/
def findDuplicatesWithSources (jaro jw : String → String → ℚ)
    (config : DeduplicatorConfig) (citations : List Citation) (sources : List String) :
    Except DedupeError (List DuplicateGroup) :=
  if citations.isEmpty then .ok []
  else if citations.length < sources.length then
    .error (.ConfigError (sourcesExceedMessage sources.length citations.length))
  else
    let srcMap := buildSourceMap citations.length sources
    if config.group_by_year then
      processBucketList jaro jw config.source_preferences srcMap (yearBuckets citations)
    else
      processCitationGroupWithSources jaro jw config.source_preferences srcMap citations

/-- find_duplicates: the sourceless entry point. -/
def findDuplicates (jaro jw : String → String → ℚ) (config : DeduplicatorConfig)
    (citations : List Citation) : Except DedupeError (List DuplicateGroup) :=
  findDuplicatesWithSources jaro jw config citations []

/-- Deduplicator::new(): year grouping on, parallelism off, no preferences. -/
def defaultDeduplicatorConfig : DeduplicatorConfig :=
  { group_by_year := true, run_in_parallel := false, source_preferences := [] }

/-- The two-branch decision rule as the specification states it: the branch
is picked by "both citations have a non-empty DOI", DOI equality is
equality of the raw optional doi fields, and the thresholds are written out
as the spec lists them. -/
def specDuplicateDecision (jaro jw : String → String → ℚ)
    (a b : PreprocessedCitation) : Bool :=
  if hasNonEmptyDoi a.original && hasNonEmptyDoi b.original then
    let sim := jaro a.normalized_title b.normalized_title
    let dois_equal := a.original.doi == b.original.doi
    (dois_equal && decide (doiTitleSimilarityThreshold ≤ sim) &&
        (journalMatchB a b || issnsMatchB a b)) ||
      (dois_equal && decide (veryHighTitleSimilarityThreshold ≤ sim) &&
        (volumesMatchB a b || pagesMatchB a b)) ||
      (decide (veryHighTitleSimilarityThreshold ≤ sim) && yearsMatchB a b &&
        (volumesMatchB a b || pagesMatchB a b) && (journalMatchB a b || issnsMatchB a b))
  else
    let sim := jw a.normalized_title b.normalized_title
    (decide (noDoiTitleSimilarityThreshold ≤ sim) && (volumesMatchB a b || pagesMatchB a b) &&
        (journalMatchB a b || issnsMatchB a b)) ||
      (decide (veryHighTitleSimilarityThreshold ≤ sim) && yearsMatchB a b && volumesMatchB a b &&
        pagesMatchB a b)

/-- Equality commutes under any lawful boolean equality. -/
theorem beq_symm_eq {α : Type} [BEq α] [LawfulBEq α] (a b : α) : (a == b) = (b == a) := by
  by_cases h : a = b
  · subst h; rfl
  · rw [beq_eq_false_iff_ne.mpr h, beq_eq_false_iff_ne.mpr (Ne.symm h)]

/-- bothSomeEq is symmetric. -/
theorem bothSomeEq_comm (x y : Option String) : bothSomeEq x y = bothSomeEq y x := by
  cases x <;> cases y <;> simp only [bothSomeEq] <;> first | rfl | exact beq_symm_eq ..

/-- journals_match is symmetric in the two citations. -/
theorem journalsMatch_comm (j1 a1 j2 a2 : Option String) :
    journalsMatch j1 a1 j2 a2 = journalsMatch j2 a2 j1 a1 := by
  unfold journalsMatch
  rw [bothSomeEq_comm j1 j2, bothSomeEq_comm a1 a2, bothSomeEq_comm j1 a2,
    bothSomeEq_comm a1 j2]
  apply Bool.eq_iff_iff.mpr
  simp only [Bool.or_eq_true]
  tauto

/-- match_issns is symmetric. -/
theorem matchIssns_comm (l1 l2 : List String) : matchIssns l1 l2 = matchIssns l2 l1 := by
  apply Bool.eq_iff_iff.mpr
  simp only [matchIssns, List.any_eq_true]
  constructor
  · rintro ⟨x, hx, y, hy, h⟩
    exact ⟨y, hy, x, hx, beq_symm_eq x y ▸ h⟩
  · rintro ⟨x, hx, y, hy, h⟩
    exact ⟨y, hy, x, hx, beq_symm_eq x y ▸ h⟩

/-- journalMatchB is symmetric. -/
theorem journalMatchB_comm (a b : PreprocessedCitation) :
    journalMatchB a b = journalMatchB b a := by
  unfold journalMatchB
  exact journalsMatch_comm ..

/-- issnsMatchB is symmetric. -/
theorem issnsMatchB_comm (a b : PreprocessedCitation) :
    issnsMatchB a b = issnsMatchB b a := by
  unfold issnsMatchB
  exact matchIssns_comm ..

/-- volumesMatchB is symmetric. -/
theorem volumesMatchB_comm (a b : PreprocessedCitation) :
    volumesMatchB a b = volumesMatchB b a := by
  unfold volumesMatchB
  rw [beq_symm_eq a.normalized_volume b.normalized_volume]
  apply Bool.eq_iff_iff.mpr
  simp only [Bool.and_eq_true]
  tauto

/-- pagesMatchB is symmetric. -/
theorem pagesMatchB_comm (a b : PreprocessedCitation) :
    pagesMatchB a b = pagesMatchB b a := by
  unfold pagesMatchB
  rw [beq_symm_eq a.original.pages b.original.pages]
  apply Bool.eq_iff_iff.mpr
  simp only [Bool.and_eq_true]
  tauto

/-- yearsMatchB is symmetric. -/
theorem yearsMatchB_comm (a b : PreprocessedCitation) :
    yearsMatchB a b = yearsMatchB b a := by
  unfold yearsMatchB
  exact beq_symm_eq ..

/-- The with-DOI decision body is symmetric when jaro is. -/
theorem withDoiDecision_comm (jaro : String → String → ℚ)
    (hj : ∀ s t, jaro s t = jaro t s) (a b : PreprocessedCitation) (d1 d2 : String) :
    withDoiDecision jaro a b d1 d2 = withDoiDecision jaro b a d2 d1 := by
  unfold withDoiDecision
  rw [hj a.normalized_title b.normalized_title, beq_symm_eq d1 d2, journalMatchB_comm,
    issnsMatchB_comm, volumesMatchB_comm, pagesMatchB_comm, yearsMatchB_comm]

/-- The without-DOI decision body is symmetric when jaro_winkler is. -/
theorem withoutDoiDecision_comm (jw : String → String → ℚ)
    (hw : ∀ s t, jw s t = jw t s) (a b : PreprocessedCitation) :
    withoutDoiDecision jw a b = withoutDoiDecision jw b a := by
  unfold withoutDoiDecision
  rw [hw a.normalized_title b.normalized_title, journalMatchB_comm,
    issnsMatchB_comm, volumesMatchB_comm, pagesMatchB_comm, yearsMatchB_comm]

/-- The pairwise duplicate decision is symmetric whenever the two external
similarity metrics are. -/
theorem isDuplicatePair_comm (jaro jw : String → String → ℚ)
    (hj : ∀ s t, jaro s t = jaro t s) (hw : ∀ s t, jw s t = jw t s)
    (a b : PreprocessedCitation) :
    isDuplicatePair jaro jw a b = isDuplicatePair jaro jw b a := by
  unfold isDuplicatePair
  cases a.original.doi <;> cases b.original.doi <;>
    simp only [withoutDoiDecision_comm jw hw a b]
  rename_i d1 d2
  rw [Bool.and_comm (!d1.isEmpty) (!d2.isEmpty)]
  by_cases h : (!d2.isEmpty && !d1.isEmpty) = true
  · rw [if_pos h, if_pos h]
    exact withDoiDecision_comm jaro hj a b d1 d2
  · rw [if_neg h, if_neg h]

/-- C1: for every pair of preprocessed citations (and any pair of similarity
metrics), the code's pairwise duplicate decision equals the spec's
two-branch rule - non-empty DOIs on both sides select the with-DOI branch
(DOIs equal AND jaro ≥ 0.85 AND (journal OR issn), or DOIs equal AND
jaro ≥ 0.99 AND (volume OR pages), or jaro ≥ 0.99 AND year AND (volume OR
pages) AND (journal OR issn)); otherwise jaro_winkler ≥ 0.93 AND (volume OR
pages) AND (journal OR issn), or jaro_winkler ≥ 0.99 AND year AND volume
AND pages. -/
theorem C1_pairwise_decision_equals_spec_rule :
    ∀ (jaro jw : String → String → ℚ) (a b : PreprocessedCitation),
      isDuplicatePair jaro jw a b = specDuplicateDecision jaro jw a b := by
  intro jaro jw a b
  unfold isDuplicatePair specDuplicateDecision withDoiDecision withoutDoiDecision
  cases ha : a.original.doi <;> cases hb : b.original.doi <;>
    simp [hasNonEmptyDoi, ha, hb, doiTitleSimilarityThreshold,
      noDoiTitleSimilarityThreshold, Bool.and_assoc]

/-- A sample citation used by witness instantiations. -/
def sampleCitA : Citation :=
  { title := "Alpha study", doi := some "10.1/a", pages := some "1-10",
    volume := some "7", date := some ⟨2020, none, none⟩ }

/-- A second sample citation, differing from the first. -/
def sampleCitB : Citation :=
  { title := "Beta study", doi := some "10.1/b", pages := some "11-20",
    volume := some "8", date := some ⟨2019, none, none⟩ }

/-- The sample preprocessed citation used by witness instantiations. -/
def samplePreA : PreprocessedCitation :=
  { original := sampleCitA
    normalized_title := "alphastudy"
    normalized_journal := some "heart"
    normalized_journal_abbr := none
    normalized_issn := ["1234-5678"]
    normalized_volume := "7" }

/-- A second sample preprocessed citation, differing from the first. -/
def samplePreB : PreprocessedCitation :=
  { original := sampleCitB
    normalized_title := "betastudy"
    normalized_journal := some "lancet"
    normalized_journal_abbr := some "heart"
    normalized_issn := ["1234-567X"]
    normalized_volume := "8" }

/-- C10: the pairwise duplicate decision is symmetric - each supporting
predicate (journal match with its cross-match, ISSN, volume, pages, year)
is symmetric, and the full decision is symmetric whenever the two
title-similarity metrics are (the metrics live in the external strsim
crate, whose jaro and jaro_winkler are symmetric per the spec glossary). -/
theorem C10_pairwise_decision_symmetric :
    (∀ j1 a1 j2 a2, journalsMatch j1 a1 j2 a2 = journalsMatch j2 a2 j1 a1) ∧
    (∀ l1 l2, matchIssns l1 l2 = matchIssns l2 l1) ∧
    (∀ a b, volumesMatchB a b = volumesMatchB b a) ∧
    (∀ a b, pagesMatchB a b = pagesMatchB b a) ∧
    (∀ a b, yearsMatchB a b = yearsMatchB b a) ∧
    ∀ (jaro jw : String → String → ℚ),
      (∀ s t, jaro s t = jaro t s) → (∀ s t, jw s t = jw t s) →
      ∀ a b, isDuplicatePair jaro jw a b = isDuplicatePair jaro jw b a :=
  ⟨journalsMatch_comm, matchIssns_comm, volumesMatchB_comm, pagesMatchB_comm,
    yearsMatchB_comm, fun jaro jw hj hw => isDuplicatePair_comm jaro jw hj hw⟩

/-- The constant-zero similarity metric (trivially symmetric), for witness
instantiations. -/
def zeroSim : String → String → ℚ := fun _ _ => 0

/-- Witness for C10 at the two sample citations and the constant metric. -/
theorem C10_witness :
    isDuplicatePair zeroSim zeroSim samplePreA samplePreB =
      isDuplicatePair zeroSim zeroSim samplePreB samplePreA :=
  C10_pairwise_decision_symmetric.2.2.2.2.2 zeroSim zeroSim
    (fun _ _ => rfl) (fun _ _ => rfl) samplePreA samplePreB

/-- The spec's abstract-based canonical choice (as amended: presence of the
abstract field is what the code tests): partition members by abstract
presence; none present - first member; exactly one - that member; several -
the first that also has a non-empty DOI, else the first abstract-bearing
member. -/
def specSelectByAbstract (pairs : List (Citation × Nat)) : Citation × Nat :=
  let withAbs := pairs.filter fun q => q.1.abstract_text.isSome
  match withAbs with
  | [] => pairs.headD default
  | [q] => q
  | q :: qs => ((q :: qs).find? fun r => hasNonEmptyDoi r.1).getD q

/-- A citation whose abstract field is present but empty. -/
def citEmptyAbstract : Citation :=
  { title := "a", abstract_text := some "" }

/-- A citation with a non-empty abstract (and no DOI). -/
def citFullAbstract : Citation :=
  { title := "b", abstract_text := some "Background" }

/-- C4 counterexample: in a two-member group where exactly one member has a
non-empty abstract (the other has a present but empty abstract), the code
returns the empty-abstract member that comes first, not the unique
non-empty-abstract member the claim designates. -/
theorem C4_counterexample :
    citEmptyAbstract.abstract_text = some "" ∧
      citFullAbstract.abstract_text = some "Background" ∧
      selectPairByAbstract [(citEmptyAbstract, 0), (citFullAbstract, 1)] =
        (citEmptyAbstract, 0) ∧
      (citEmptyAbstract, 0) ≠ ((citFullAbstract, 1) : Citation × Nat) := by
  refine ⟨rfl, rfl, rfl, ?_⟩
  decide

/-- C4 (amended): with empty source preferences the selector falls back to
the abstract logic, and that logic partitions members by PRESENCE of the
abstract field (an empty-string abstract counts as present): none present -
first member in input order; exactly one present - that member; several -
the first of those with a non-empty DOI, else the first abstract-bearing
member. -/
theorem C4_abstract_tiebreak :
    (∀ (srcMap : Nat → Option (Option String)) (pairs : List (Citation × Nat)),
      selectPairWithSources [] srcMap pairs = selectPairByAbstract pairs) ∧
    ∀ pairs : List (Citation × Nat), pairs ≠ [] →
      selectPairByAbstract pairs = specSelectByAbstract pairs := by
  constructor
  · intro srcMap pairs
    unfold selectPairWithSources selectPairByAbstract
    by_cases h : pairs.length = 1
    · rw [if_pos h, if_pos h]
    · rw [if_neg h, if_neg h]
      rfl
  · intro pairs hne
    unfold selectPairByAbstract specSelectByAbstract
    by_cases h : pairs.length = 1
    · rw [if_pos h]
      match pairs, h with
      | [q], _ =>
        by_cases habs : q.1.abstract_text.isSome
        · simp [habs]
        · simp [habs]
    · rw [if_neg h]

/-- Witness for C4's amended theorem at the counterexample group. -/
theorem C4_witness :
    selectPairByAbstract [(citEmptyAbstract, 0), (citFullAbstract, 1)] =
      specSelectByAbstract [(citEmptyAbstract, 0), (citFullAbstract, 1)] :=
  C4_abstract_tiebreak.2 [(citEmptyAbstract, 0), (citFullAbstract, 1)] (by decide)

/-- The spec's source-preference choice, as the claim words it: scan the
preference list in priority order, stop at the first preference some member
matches, and return the first member (in group order) matching it. -/
def specSelectBySource (prefs : List String) (srcMap : Nat → Option (Option String))
    (pairs : List (Citation × Nat)) : Option (Citation × Nat) :=
  (prefs.find? fun p => pairs.any fun q => srcMap q.2 == some (some p)).bind
    fun p => pairs.find? fun q => srcMap q.2 == some (some p)

/-- The double loop of select_unique_citation_with_sources computes exactly
the spec's stop-at-first-matching-preference choice. -/
theorem findPreferredPair_eq_spec (prefs : List String)
    (srcMap : Nat → Option (Option String)) (pairs : List (Citation × Nat)) :
    findPreferredPair srcMap pairs prefs = specSelectBySource prefs srcMap pairs := by
  induction prefs with
  | nil => rfl
  | cons p ps ih =>
    unfold findPreferredPair specSelectBySource
    cases h : pairs.find? (fun q => srcMap q.2 == some (some p)) with
    | some q =>
      have hpq := List.find?_some h
      have hany : (pairs.any fun q => srcMap q.2 == some (some p)) = true := by
        rw [List.any_eq_true]
        exact ⟨q, List.mem_of_find?_eq_some h, by simpa using hpq⟩
      simp [List.find?, hany, h]
    | none =>
      have hany : (pairs.any fun q => srcMap q.2 == some (some p)) = false := by
        rw [Bool.eq_false_iff, ne_eq, List.any_eq_true]
        rintro ⟨q, hq, hpq⟩
        rw [List.find?_eq_none] at h
        exact absurd hpq (by simpa using h q hq)
      simp only [List.find?, hany]
      simpa [specSelectBySource] using ih

/-- C9: for a multi-member group under non-empty source preferences, the
canonical member is found by scanning the preference list in priority order
and taking the first member (in group order) whose source-map entry equals
the current preference, stopping at the first preference matched by any
member: the selector's scan equals the spec's choice, and whenever that
choice exists it is what the selector returns. -/
theorem C9_source_preference_selection :
    (∀ (prefs : List String) (srcMap : Nat → Option (Option String))
        (pairs : List (Citation × Nat)),
      findPreferredPair srcMap pairs prefs = specSelectBySource prefs srcMap pairs) ∧
    ∀ (prefs : List String) (srcMap : Nat → Option (Option String))
        (pairs : List (Citation × Nat)) (u : Citation × Nat),
      1 < pairs.length → prefs ≠ [] →
      specSelectBySource prefs srcMap pairs = some u →
      selectPairWithSources prefs srcMap pairs = u := by
  refine ⟨findPreferredPair_eq_spec, ?_⟩
  intro prefs srcMap pairs u hlen hprefs hspec
  unfold selectPairWithSources
  rw [if_neg (by omega)]
  have hne : prefs.isEmpty = false := by
    cases prefs
    · exact absurd rfl hprefs
    · rfl
  rw [hne]
  simp only [Bool.false_eq_true, if_false, findPreferredPair_eq_spec, hspec]

/-- Witness for C9: the spec scenario - member sources ["source2",
"source1"], preferences ["source1", "source2"] - selects the "source1"
member (here the second in group order). -/
theorem C9_witness :
    selectPairWithSources ["source1", "source2"] (buildSourceMap 2 ["source2", "source1"])
      [(sampleCitA, 0), (sampleCitB, 1)] = (sampleCitB, 1) :=
  C9_source_preference_selection.2 ["source1", "source2"]
    (buildSourceMap 2 ["source2", "source1"]) [(sampleCitA, 0), (sampleCitB, 1)]
    (sampleCitB, 1) (by decide) (by decide) (by decide)

/-- C3 counterexample: with an empty citations list and a strictly longer
source-label list the call returns Ok [] - the empty-input early return
fires before the length validation, so the claim's "every citations list,
including the empty one" fails. -/
theorem C3_counterexample :
    findDuplicatesWithSources zeroSim zeroSim defaultDeduplicatorConfig [] ["a"] =
      .ok [] := rfl

/-- C3 (amended): for every NON-EMPTY citations list and every source-labels
list strictly longer than it, the call fails with the ConfigError built
from the two lengths, before any processing. -/
theorem C3_sources_longer_config_error (jaro jw : String → String → ℚ)
    (config : DeduplicatorConfig) (citations : List Citation) (sources : List String)
    (hne : citations ≠ []) (hlen : citations.length < sources.length) :
    findDuplicatesWithSources jaro jw config citations sources =
      .error (.ConfigError (sourcesExceedMessage sources.length citations.length)) := by
  unfold findDuplicatesWithSources
  rw [if_neg (by simp [List.isEmpty_iff, hne]), if_pos hlen]

/-- Witness for C3's amended theorem. -/
theorem C3_witness :
    findDuplicatesWithSources zeroSim zeroSim defaultDeduplicatorConfig [sampleCitA]
      ["a", "b"] = .error (.ConfigError (sourcesExceedMessage 2 1)) :=
  C3_sources_longer_config_error zeroSim zeroSim defaultDeduplicatorConfig [sampleCitA]
    ["a", "b"] (by decide) (by decide)

/-- dropWhile only depends on the predicate's values on the list. -/
theorem dropWhile_congr_mem {p q : Char → Bool} :
    ∀ l : List Char, (∀ c ∈ l, p c = q c) → l.dropWhile p = l.dropWhile q := by
  intro l
  induction l with
  | nil => intro _; rfl
  | cons a t ih =>
    intro h
    have ha := h a (List.mem_cons_self a t)
    simp only [List.dropWhile_cons, ha]
    cases hq : q a
    · simp
    · simpa using ih fun c hc => h c (List.mem_cons_of_mem a hc)

/-- takeWhile only depends on the predicate's values on the list. -/
theorem takeWhile_congr_mem {p q : Char → Bool} :
    ∀ l : List Char, (∀ c ∈ l, p c = q c) → l.takeWhile p = l.takeWhile q := by
  intro l
  induction l with
  | nil => intro _; rfl
  | cons a t ih =>
    intro h
    have ha := h a (List.mem_cons_self a t)
    simp only [List.takeWhile_cons, ha]
    cases hq : q a
    · simp
    · simpa using ih fun c hc => h c (List.mem_cons_of_mem a hc)

/-- On ASCII characters Rust's char::is_numeric is the ASCII digit test. -/
theorem rustIsNumeric_ascii {c : Char} (h : c.toNat < 128) :
    rustIsNumeric c = isAsciiDigit c := by
  unfold rustIsNumeric
  have h2 : (c.toNat = 0xB2) = False := by simp; omega
  have h3 : (c.toNat = 0xB3) = False := by simp; omega
  have h9 : (c.toNat = 0xB9) = False := by simp; omega
  have hc : (c.toNat = 0xBC) = False := by simp; omega
  have hd : (c.toNat = 0xBD) = False := by simp; omega
  have he : (c.toNat = 0xBE) = False := by simp; omega
  simp [h2, h3, h9, hc, hd, he]

/-- The claim's volume rule: first maximal run of ASCII digits, skipping
leading non-digit characters (empty when there is no digit). -/
def specVolumeAscii (s : List Char) : List Char :=
  (s.dropWhile fun c => !isAsciiDigit c).takeWhile isAsciiDigit

/-- C7 counterexample: on "½3" the code returns "½3" - VULGAR FRACTION ONE
HALF (U+00BD, category No) satisfies char::is_numeric - while the claim's
ASCII-digit rule demands "3"; so normalize_volume does not return a run of
ASCII digits on every input. -/
theorem C7_counterexample :
    normalizeVolume "½3" = "½3" ∧ ("½3" : String) ≠ "3" ∧
      String.mk (specVolumeAscii "½3".data) = "3" := by
  refine ⟨rfl, ?_, rfl⟩
  decide

/-- C7 (amended): normalize_volume scans with Rust char::is_numeric
(categories Nd/Nl/No), not only ASCII digits; restricted to ASCII input it
returns exactly the claim's first maximal ASCII-digit run, and the claim's
examples hold. -/
theorem C7_volume_first_digit_run :
    (∀ s : List Char, (∀ c ∈ s, c.toNat < 128) →
      normalizeVolumeChars s = specVolumeAscii s) ∧
    normalizeVolume "74 Suppl 1" = "74" ∧ normalizeVolume "Part A. 242" = "242" ∧
    normalizeVolume "" = "" := by
  refine ⟨?_, rfl, rfl, rfl⟩
  intro s hs
  unfold normalizeVolumeChars specVolumeAscii
  by_cases hnil : s = []
  · subst hnil
    rfl
  · rw [if_neg hnil]
    have hdrop : (s.dropWhile fun c => !rustIsNumeric c) =
        (s.dropWhile fun c => !isAsciiDigit c) :=
      dropWhile_congr_mem s fun c hc => by rw [rustIsNumeric_ascii (hs c hc)]
    have hmem : ∀ c ∈ s.dropWhile fun c => !isAsciiDigit c, c.toNat < 128 := fun c hc =>
      hs c ((List.dropWhile_sublist _).mem hc)
    have htake : ((s.dropWhile fun c => !isAsciiDigit c).takeWhile rustIsNumeric) =
        ((s.dropWhile fun c => !isAsciiDigit c).takeWhile isAsciiDigit) :=
      takeWhile_congr_mem _ fun c hc => rustIsNumeric_ascii (hmem c hc)
    rw [hdrop, htake]
    by_cases hrun : ((s.dropWhile fun c => !isAsciiDigit c).takeWhile isAsciiDigit) = []
    · rw [if_pos hrun, hrun]
    · rw [if_neg hrun]

/-- Witness for C7's amended theorem at the spec's own example. -/
theorem C7_witness :
    normalizeVolumeChars "74 Suppl 1".data = specVolumeAscii "74 Suppl 1".data :=
  C7_volume_first_digit_run.1 "74 Suppl 1".data (by decide)

/-- Characters equal when their code points are. -/
theorem char_eq_of_toNat {c d : Char} (h : c.toNat = d.toNat) : c = d := by
  have hc : Char.ofNat c.toNat = Char.ofNat d.toNat := by rw [h]
  rwa [Char.ofNat_toNat, Char.ofNat_toNat] at hc

/-- dropWhile by a predicate disjoint from p does not change a p-filter. -/
theorem filter_dropWhile_disjoint {p q : Char → Bool}
    (hpq : ∀ c, q c = true → p c = false) :
    ∀ l : List Char, (l.dropWhile q).filter p = l.filter p := by
  intro l
  induction l with
  | nil => rfl
  | cons a t ih =>
    rw [List.dropWhile_cons]
    cases ha : q a
    · rw [if_neg (by simp)]
    · rw [if_pos rfl, ih, List.filter_cons_of_neg (by simp [hpq a ha])]

/-- Trimming whitespace does not change a filter that rejects whitespace. -/
theorem filter_trimChars_disjoint {p : Char → Bool}
    (hpw : ∀ c, rustIsWhitespace c = true → p c = false) (l : List Char) :
    (trimChars l).filter p = l.filter p := by
  unfold trimChars
  rw [List.filter_reverse, filter_dropWhile_disjoint hpw, List.filter_reverse,
    filter_dropWhile_disjoint hpw, List.reverse_reverse]

/-- dropWhile is the identity when no element satisfies the predicate. -/
theorem dropWhile_eq_self_of_all {p : Char → Bool} {l : List Char}
    (h : ∀ c ∈ l, p c = false) : l.dropWhile p = l := by
  cases l with
  | nil => rfl
  | cons a t => simp [List.dropWhile_cons, h a (List.mem_cons_self a t)]

/-- Trimming is the identity on whitespace-free lists. -/
theorem trimChars_eq_self {l : List Char} (h : ∀ c ∈ l, rustIsWhitespace c = false) :
    trimChars l = l := by
  unfold trimChars
  rw [dropWhile_eq_self_of_all h,
    dropWhile_eq_self_of_all (fun c hc => h c (List.mem_reverse.mp hc)),
    List.reverse_reverse]

/-- Replacing a pattern by nothing does not change a filter that rejects
every character of the pattern. -/
theorem filter_rustReplace_nil {p : Char → Bool} {pat : List Char} (hne : pat ≠ [])
    (hp : ∀ c ∈ pat, p c = false) :
    ∀ l : List Char, (rustReplace pat [] l).filter p = l.filter p := by
  have key : ∀ (n : Nat) (l : List Char), l.length ≤ n →
      (rustReplaceAux pat [] n l).filter p = l.filter p := by
    intro n
    induction n with
    | zero =>
      intro l hl
      have h0 : l = [] := List.length_eq_zero.mp (Nat.le_zero.mp hl)
      subst h0
      rfl
    | succ n ih =>
      intro l hl
      cases l with
      | nil => rfl
      | cons c rest =>
        rw [rustReplaceAux]
        by_cases hpre : pat.isPrefixOf (c :: rest) = true
        · rw [if_pos ⟨hne, hpre⟩, List.nil_append]
          have happ : pat ++ (c :: rest).drop pat.length = c :: rest :=
            List.prefix_iff_eq_append.mp (List.isPrefixOf_iff_prefix.mp hpre)
          have hdrop : (c :: rest).drop pat.length = rest.drop (pat.length - 1) := by
            cases hp0 : pat with
            | nil => exact absurd hp0 hne
            | cons a t => simp
          have hlen : (rest.drop (pat.length - 1)).length ≤ n := by
            have hld := List.length_drop (pat.length - 1) rest
            simp only [List.length_cons] at hl
            omega
          have hfilpat : List.filter p pat = [] :=
            List.filter_eq_nil_iff.mpr fun a ha => by simp [hp a ha]
          calc (rustReplaceAux pat [] n (rest.drop (pat.length - 1))).filter p
              = (rest.drop (pat.length - 1)).filter p := ih _ hlen
            _ = List.filter p pat ++ ((c :: rest).drop pat.length).filter p := by
                rw [hfilpat, List.nil_append, hdrop]
            _ = (pat ++ (c :: rest).drop pat.length).filter p := (List.filter_append _ _).symm
            _ = (c :: rest).filter p := by rw [happ]
        · rw [if_neg (fun hcon => hpre hcon.2)]
          have hr : (rustReplaceAux pat [] n rest).filter p = rest.filter p :=
            ih rest (by simpa using Nat.le_of_succ_le_succ hl)
          cases hpc : p c
          · rw [List.filter_cons_of_neg (by simp [hpc]),
              List.filter_cons_of_neg (by simp [hpc]), hr]
          · rw [List.filter_cons_of_pos hpc, List.filter_cons_of_pos hpc, hr]
  exact fun l => key l.length l le_rfl

/-- Whitespace characters are never kept by the ISSN character strip. -/
theorem ws_not_issnKeep : ∀ c, rustIsWhitespace c = true → issnKeepChar c = false := by
  intro c h
  unfold rustIsWhitespace at h
  unfold issnKeepChar isAsciiDigit
  rw [Bool.eq_false_iff]
  intro hk
  simp only [Bool.or_eq_true, Bool.and_eq_true, decide_eq_true_eq] at h hk
  omega

/-- format_issn's cleaning collapses to the plain character filter: the
trims and the three annotation strips only remove characters the filter
drops anyway. -/
theorem cleanIssn_eq_filter (s : List Char) : cleanIssn s = s.filter issnKeepChar := by
  unfold cleanIssn
  have hsub : ∀ c ∈ (rustReplace "(Print)".data [] (rustReplace "(Linking)".data []
      (rustReplace "(Electronic)".data [] (trimChars s)))).filter issnKeepChar,
      rustIsWhitespace c = false := by
    intro c hc
    have hk := List.of_mem_filter hc
    cases hw : rustIsWhitespace c
    · rfl
    · exact absurd hk (by simp [ws_not_issnKeep c hw])
  rw [trimChars_eq_self hsub, filter_rustReplace_nil (by decide) (by decide),
    filter_rustReplace_nil (by decide) (by decide),
    filter_rustReplace_nil (by decide) (by decide),
    filter_trimChars_disjoint ws_not_issnKeep]

/-- The specification's cleaning phase: strip the three annotations, then
every character that is not an ASCII digit, hyphen or X. -/
def specCleanIssn (s : List Char) : List Char :=
  (rustReplace "(Print)".data [] (rustReplace "(Linking)".data []
    (rustReplace "(Electronic)".data [] s))).filter issnKeepChar

/-- The spec's cleaning also collapses to the plain character filter. -/
theorem specCleanIssn_eq_filter (s : List Char) :
    specCleanIssn s = s.filter issnKeepChar := by
  unfold specCleanIssn
  rw [filter_rustReplace_nil (by decide) (by decide),
    filter_rustReplace_nil (by decide) (by decide),
    filter_rustReplace_nil (by decide) (by decide)]

/-- The two accepted shapes as the specification states them: after
cleaning, either 9 characters with the (single) hyphen at position 4,
returned as is, or 8 digit/X characters, returned hyphenated 4-4. -/
def specFormatIssn (s : List Char) : Option (List Char) :=
  let cleaned := specCleanIssn s
  if cleaned.length = 9 ∧ cleaned.get? 4 = some '-' ∧ cleaned.count '-' = 1 then
    some cleaned
  else if cleaned.length = 8 ∧ cleaned.all issnDigitX then
    some (cleaned.take 4 ++ '-' :: cleaned.drop 4)
  else none

/-- On a cleaned list every position is a digit, X, or hyphen, so its length
splits into the digit/X count plus the hyphen count. -/
theorem cleaned_length_split (X : List Char) (hmem : ∀ c ∈ X, issnKeepChar c = true) :
    X.length = (X.filter issnDigitX).length + X.count '-' := by
  have h0 := List.length_eq_countP_add_countP issnDigitX X
  have hneg : List.countP (fun a => decide (¬issnDigitX a = true)) X = X.count '-' := by
    rw [List.count_eq_countP]
    apply List.countP_congr
    intro a ha
    have hk := hmem a ha
    have hdash : ('-').toNat = 45 := rfl
    unfold issnKeepChar isAsciiDigit at hk
    unfold issnDigitX isAsciiDigit
    simp only [Bool.or_eq_true, Bool.and_eq_true, decide_eq_true_eq, beq_iff_eq] at hk ⊢
    constructor
    · intro hnd
      exact char_eq_of_toNat (by omega)
    · intro heq
      subst heq
      omega
  rw [hneg] at h0
  rw [← List.countP_eq_length_filter]
  omega

/-- C5: format_issn is exactly the spec's strict validator - strip the
annotations and every character that is not an ASCII digit, hyphen or X,
then accept only a 9-character form with the single hyphen at position 4
(returned as is) or exactly 8 digit/X characters (returned hyphenated) -
and the claim's round-trip examples hold. -/
theorem C5_issn_strict_two_shapes :
    (∀ s : List Char, formatIssnChars s = specFormatIssn s) ∧
    formatIssn "12345678" = some "1234-5678" ∧
    formatIssn "1234-567X (Electronic)" = some "1234-567X" ∧
    formatIssn "invalid" = none ∧
    formatIssn "1234-56789" = none := by
  refine ⟨?_, by decide, by decide, by decide, by decide⟩
  intro s
  have hclean : cleanIssn s = s.filter issnKeepChar := cleanIssn_eq_filter s
  have hspecc : specCleanIssn s = s.filter issnKeepChar := specCleanIssn_eq_filter s
  simp only [formatIssnChars, specFormatIssn, hclean, hspecc]
  set X := s.filter issnKeepChar with hX
  have hmem : ∀ c ∈ X, issnKeepChar c = true := fun c hc => List.of_mem_filter hc
  have hsplit := cleaned_length_split X hmem
  by_cases h1 : X.length = 9 ∧ (X.filter issnDigitX).length = 8 ∧ X.get? 4 = some '-'
  · have hs1 : X.length = 9 ∧ X.get? 4 = some '-' ∧ X.count '-' = 1 :=
      ⟨h1.1, h1.2.2, by omega⟩
    rw [if_pos h1, if_pos hs1]
  · have hs1 : ¬(X.length = 9 ∧ X.get? 4 = some '-' ∧ X.count '-' = 1) :=
      fun hc => h1 ⟨hc.1, by omega, hc.2.1⟩
    rw [if_neg h1, if_neg hs1]
    by_cases h2 : X.length = 8 ∧ (X.filter issnDigitX).length = 8
    · have hall : ∀ c ∈ X, issnDigitX c = true := by
        rw [← List.countP_eq_length, List.countP_eq_length_filter]
        omega
      have hfx : X.filter issnDigitX = X := List.filter_eq_self.mpr hall
      have hs2 : X.length = 8 ∧ X.all issnDigitX = true :=
        ⟨h2.1, List.all_eq_true.mpr hall⟩
      rw [if_pos h2, if_pos hs2, hfx]
    · have hs2 : ¬(X.length = 8 ∧ X.all issnDigitX = true) := by
        intro hc
        apply h2
        refine ⟨hc.1, ?_⟩
        have hcnt : List.countP issnDigitX X = X.length :=
          List.countP_eq_length.mpr (List.all_eq_true.mp hc.2)
        rw [← List.countP_eq_length_filter, hcnt, hc.1]
      rw [if_neg h2, if_neg hs2]

/-- The single error the bucket pipeline can produce. -/
def titleFailure : DedupeError := .ProcessingError "Failed to normalize title"

/-- An empty title is the failure case of preprocessing. -/
theorem preprocessCitation_empty_title {c : Citation} (h : c.title = "") :
    preprocessCitation c = .error titleFailure := by
  unfold preprocessCitation
  rw [h]
  rfl

/-- Preprocessing either fails with the title failure or succeeds. -/
theorem preprocessCitation_cases (c : Citation) :
    preprocessCitation c = .error titleFailure ∨
      ∃ p, preprocessCitation c = .ok p := by
  unfold preprocessCitation
  cases normalizeString (convertUnicodeString c.title)
  · exact Or.inl rfl
  · exact Or.inr ⟨_, rfl⟩

/-- A bucket containing an empty-title citation fails preprocessing with the
title failure. -/
theorem preprocessAll_error {citations : List Citation}
    (hex : ∃ c ∈ citations, c.title = "") :
    preprocessAll citations = .error titleFailure := by
  induction citations with
  | nil => simp at hex
  | cons c cs ih =>
    obtain ⟨d, hd, hdt⟩ := hex
    unfold preprocessAll
    rcases List.mem_cons.mp hd with h | h
    · subst h
      rw [preprocessCitation_empty_title hdt]
    · rcases preprocessCitation_cases c with hc | ⟨p, hp⟩
      · rw [hc]
      · rw [hp, ih ⟨d, h, hdt⟩]

/-- preprocessAll either fails with the title failure or succeeds. -/
theorem preprocessAll_cases (citations : List Citation) :
    preprocessAll citations = .error titleFailure ∨
      ∃ ps, preprocessAll citations = .ok ps := by
  induction citations with
  | nil => exact Or.inr ⟨[], rfl⟩
  | cons c cs ih =>
    unfold preprocessAll
    rcases preprocessCitation_cases c with hc | ⟨p, hp⟩
    · rw [hc]
      exact Or.inl rfl
    · rw [hp]
      rcases ih with he | ⟨ps, hps⟩
      · rw [he]
        exact Or.inl rfl
      · rw [hps]
        exact Or.inr ⟨_, rfl⟩

/-- A bucket containing an empty-title citation makes the whole bucket
processing fail with the title failure. -/
theorem processCitationGroup_error (jaro jw : String → String → ℚ)
    (prefs : List String) (srcMap : Nat → Option (Option String))
    {citations : List Citation} (hex : ∃ c ∈ citations, c.title = "") :
    processCitationGroupWithSources jaro jw prefs srcMap citations =
      .error titleFailure := by
  unfold processCitationGroupWithSources
  rw [preprocessAll_error hex]

/-- Bucket processing either fails with the title failure or succeeds. -/
theorem processCitationGroup_cases (jaro jw : String → String → ℚ)
    (prefs : List String) (srcMap : Nat → Option (Option String))
    (citations : List Citation) :
    processCitationGroupWithSources jaro jw prefs srcMap citations =
        .error titleFailure ∨
      ∃ gs, processCitationGroupWithSources jaro jw prefs srcMap citations = .ok gs := by
  unfold processCitationGroupWithSources
  rcases preprocessAll_cases citations with he | ⟨ps, hps⟩
  · rw [he]
    exact Or.inl rfl
  · rw [hps]
    exact Or.inr ⟨_, rfl⟩

/-- If some bucket contains an empty-title citation, the sequential bucket
fold fails with the title failure. -/
theorem processBucketList_error (jaro jw : String → String → ℚ)
    (prefs : List String) (srcMap : Nat → Option (Option String))
    {buckets : List (List Citation)}
    (hex : ∃ b ∈ buckets, ∃ c ∈ b, c.title = "") :
    processBucketList jaro jw prefs srcMap buckets = .error titleFailure := by
  induction buckets with
  | nil => simp at hex
  | cons b bs ih =>
    obtain ⟨b0, hb0, hc0⟩ := hex
    unfold processBucketList
    rcases List.mem_cons.mp hb0 with h | h
    · subst h
      rw [processCitationGroup_error jaro jw prefs srcMap hc0]
    · rcases processCitationGroup_cases jaro jw prefs srcMap b with hb | ⟨gs, hgs⟩
      · rw [hb]
      · rw [hgs, ih ⟨b0, h, hc0⟩]

/-- Membership in the fueled key dedup equals list membership. -/
theorem mem_dedupKeysAux :
    ∀ (fuel : Nat) (l : List Int) (a : Int), l.length ≤ fuel →
      (a ∈ dedupKeysAux fuel l ↔ a ∈ l) := by
  intro fuel
  induction fuel with
  | zero =>
    intro l a hl
    have h0 : l = [] := List.length_eq_zero.mp (Nat.le_zero.mp hl)
    subst h0
    rfl
  | succ n ih =>
    intro l a hl
    cases l with
    | nil => rfl
    | cons y ys =>
      have hlen : (ys.filter fun z => z ≠ y).length ≤ n := by
        have := List.length_filter_le (fun z => decide (z ≠ y)) ys
        simp only [List.length_cons] at hl
        omega
      simp only [dedupKeysAux, List.mem_cons, ih _ a hlen, List.mem_filter]
      constructor
      · rintro (h | ⟨h, _⟩)
        · exact Or.inl h
        · exact Or.inr h
      · rintro (h | h)
        · exact Or.inl h
        · by_cases hy : a = y
          · exact Or.inl hy
          · exact Or.inr ⟨h, by simpa using hy⟩

/-- Membership in dedupKeys equals membership in the key list. -/
theorem mem_dedupKeys {l : List Int} {a : Int} : a ∈ dedupKeys l ↔ a ∈ l :=
  mem_dedupKeysAux l.length l a le_rfl

/-- Every citation lies in its year bucket. -/
theorem mem_yearBuckets {citations : List Citation} {c : Citation}
    (hc : c ∈ citations) :
    ∃ b ∈ yearBuckets citations, c ∈ b := by
  refine ⟨citations.filter fun d => yearKey d == yearKey c, ?_, ?_⟩
  · unfold yearBuckets
    exact List.mem_map.mpr ⟨yearKey c,
      mem_dedupKeys.mpr (List.mem_map.mpr ⟨c, hc, rfl⟩), rfl⟩
  · exact List.mem_filter.mpr ⟨hc, by simp⟩

/-- Whether a result is an InvalidCitation error. -/
def isInvalidCitationResult : Except DedupeError (List DuplicateGroup) → Bool
  | .error (.InvalidCitation _) => true
  | _ => false

/-- C8 counterexample: a single empty-title citation makes the call fail,
but with a ProcessingError, not the InvalidCitation error the claim names. -/
theorem C8_counterexample :
    findDuplicates zeroSim zeroSim defaultDeduplicatorConfig [{ title := "" }] =
        .error (.ProcessingError "Failed to normalize title") ∧
      isInvalidCitationResult
        (findDuplicates zeroSim zeroSim defaultDeduplicatorConfig [{ title := "" }]) =
        false :=
  ⟨rfl, rfl⟩

/-- C8 (amended): for every non-empty input containing an empty-title
citation (the only normalization that can fail), the whole call fails -
immediately, with the ProcessingError "Failed to normalize title" - and,
the result being an error, no groups are returned alongside it. -/
theorem C8_empty_title_aborts (jaro jw : String → String → ℚ)
    (config : DeduplicatorConfig) (citations : List Citation)
    (hne : citations ≠ []) (hex : ∃ c ∈ citations, c.title = "") :
    findDuplicates jaro jw config citations =
      .error (.ProcessingError "Failed to normalize title") := by
  unfold findDuplicates findDuplicatesWithSources
  rw [if_neg (by simp [List.isEmpty_iff, hne]), if_neg (by simp)]
  cases hy : config.group_by_year
  · rw [if_neg (by simp)]
    exact processCitationGroup_error jaro jw config.source_preferences _ hex
  · rw [if_pos rfl]
    obtain ⟨c, hc, hct⟩ := hex
    obtain ⟨b, hb, hcb⟩ := mem_yearBuckets hc
    exact processBucketList_error jaro jw config.source_preferences _
      ⟨b, hb, c, hcb, hct⟩

/-- Witness for C8's amended theorem. -/
theorem C8_witness :
    findDuplicates zeroSim zeroSim defaultDeduplicatorConfig
      [{ title := "" }, sampleCitA] =
      .error (.ProcessingError "Failed to normalize title") :=
  C8_empty_title_aborts zeroSim zeroSim defaultDeduplicatorConfig
    [{ title := "" }, sampleCitA] (by decide) ⟨{ title := "" }, by decide⟩

/-- Membership in the seed's inner-scan matches. -/
theorem mem_matchCandidates {dup : Nat → Nat → Bool} {n i : Nat} {processed : List Nat}
    {j : Nat} :
    j ∈ matchCandidates dup n i processed ↔
      j < n ∧ j ≠ i ∧ j ∉ processed ∧ dup i j = true := by
  unfold matchCandidates
  rw [List.mem_filter, List.mem_range]
  constructor
  · rintro ⟨hj, hpred⟩
    by_cases hc : j = i ∨ j ∈ processed
    · rw [if_pos hc] at hpred
      exact absurd hpred (by simp)
    · rw [if_neg hc] at hpred
      push_neg at hc
      exact ⟨hj, hc.1, hc.2, hpred⟩
  · rintro ⟨hj, hne, hnp, hdup⟩
    refine ⟨hj, ?_⟩
    rw [if_neg (by tauto)]
    exact hdup

/-- A seed group (seed plus its matches) has no duplicate indices. -/
theorem nodup_seedGroup (dup : Nat → Nat → Bool) (n i : Nat) (processed : List Nat) :
    (i :: matchCandidates dup n i processed).Nodup := by
  refine List.nodup_cons.mpr ⟨?_, (List.nodup_range n).filter _⟩
  intro hmem
  exact absurd rfl (mem_matchCandidates.mp hmem).2.1

/-- Every group the greedy loop emits is a non-empty list of distinct
indices below n. -/
theorem greedyAux_groups_shape (dup : Nat → Nat → Bool) (n : Nat) :
    ∀ (fuel i : Nat) (P : List Nat), ∀ ig ∈ greedyAux dup n fuel i P,
      ig ≠ [] ∧ ig.Nodup ∧ ∀ k ∈ ig, k < n := by
  intro fuel
  induction fuel with
  | zero =>
    intro i P ig hig
    simp [greedyAux] at hig
  | succ fuel ih =>
    intro i P ig hig
    unfold greedyAux at hig
    by_cases hi : i < n
    · rw [if_pos hi] at hig
      by_cases hp : i ∈ P
      · rw [if_pos hp] at hig
        exact ih _ _ ig hig
      · rw [if_neg hp] at hig
        have hseed : (i :: matchCandidates dup n i P) ≠ [] ∧
            (i :: matchCandidates dup n i P).Nodup ∧
            ∀ k ∈ i :: matchCandidates dup n i P, k < n := by
          refine ⟨by simp, nodup_seedGroup dup n i P, ?_⟩
          intro k hk
          rcases List.mem_cons.mp hk with h | h
          · subst h
            exact hi
          · exact (mem_matchCandidates.mp h).1
        by_cases hg : 1 < (i :: matchCandidates dup n i P).length
        · rw [if_pos hg] at hig
          rcases List.mem_cons.mp hig with h | h
          · subst h
            exact hseed
          · exact ih _ _ ig h
        · rw [if_neg hg] at hig
          rcases List.mem_cons.mp hig with h | h
          · subst h
            exact hseed
          · exact ih _ _ ig h
    · rw [if_neg hi] at hig
      simp at hig

/-- The greedy partition invariant: a seed already passed and left unclaimed
matched nobody who is still unclaimed. -/
def greedyInv (dup : Nat → Nat → Bool) (n i : Nat) (P : List Nat) : Prop :=
  ∀ j, j < i → j ∉ P → ∀ k, k < n → k ∉ P → k ≠ j → dup j k = false

/-- Binding a cons of groups is the head group followed by the rest. -/
theorem bind_id_cons (g : List Nat) (gs : List (List Nat)) :
    (g :: gs).bind id = g ++ gs.bind id := rfl

/-- The partition theorem for the greedy loop: with a symmetric matcher, the
indices of the emitted groups are a permutation of the still-unclaimed
indices at or after the current seed. -/
theorem greedyAux_partition (dup : Nat → Nat → Bool) (n : Nat)
    (hsym : ∀ a b, dup a b = dup b a) :
    ∀ (fuel i : Nat) (P : List Nat), n ≤ i + fuel → greedyInv dup n i P →
      ((greedyAux dup n fuel i P).bind id).Perm
        ((List.range n).filter fun k => decide (i ≤ k ∧ k ∉ P)) := by
  intro fuel
  induction fuel with
  | zero =>
    intro i P hfuel _
    have hnil : ((List.range n).filter fun k => decide (i ≤ k ∧ k ∉ P)) = [] := by
      rw [List.filter_eq_nil_iff]
      intro k hk
      have := List.mem_range.mp hk
      simp only [decide_eq_true_eq, not_and]
      intro hik
      omega
    rw [hnil]
    rfl
  | succ fuel ih =>
    intro i P hfuel hinv
    unfold greedyAux
    by_cases hi : i < n
    · rw [if_pos hi]
      by_cases hip : i ∈ P
      · rw [if_pos hip]
        have hinv1 : greedyInv dup n (i + 1) P := by
          intro j hj hjP k hk hkP hkj
          rcases Nat.lt_succ_iff_lt_or_eq.mp hj with h | h
          · exact hinv j h hjP k hk hkP hkj
          · subst h
            exact absurd hip hjP
        have hperm := ih (i + 1) P (by omega) hinv1
        have hfe : ((List.range n).filter fun k => decide (i ≤ k ∧ k ∉ P)) =
            (List.range n).filter fun k => decide (i + 1 ≤ k ∧ k ∉ P) := by
          apply List.filter_congr
          intro k _
          by_cases hk : k = i
          · subst hk
            simp [hip]
          · simp only [decide_eq_decide]
            constructor
            · rintro ⟨h1, h2⟩
              exact ⟨by omega, h2⟩
            · rintro ⟨h1, h2⟩
              exact ⟨by omega, h2⟩
        rw [hfe]
        exact hperm
      · rw [if_neg hip]
        by_cases hg : 1 < (i :: matchCandidates dup n i P).length
        · rw [if_pos hg]
          have hinv1 : greedyInv dup n (i + 1) (P ++ i :: matchCandidates dup n i P) := by
            intro j hj hjP k hk hkP hkj
            rcases Nat.lt_succ_iff_lt_or_eq.mp hj with h | h
            · exact hinv j h (fun hc => hjP (List.mem_append_left _ hc)) k hk
                (fun hc => hkP (List.mem_append_left _ hc)) hkj
            · subst h
              exact absurd (List.mem_append_right _ (List.mem_cons_self _ _)) hjP
          have hperm := ih (i + 1) _ (by omega) hinv1
          rw [bind_id_cons]
          have hnodFilter : ((List.range n).filter fun k =>
              decide (i ≤ k ∧ k ∉ P)).Nodup := (List.nodup_range n).filter _
          have hnodRest : ((greedyAux dup n fuel (i + 1)
              (P ++ i :: matchCandidates dup n i P)).bind id).Nodup :=
            hperm.nodup_iff.mpr ((List.nodup_range n).filter _)
          have hmemRest : ∀ x, x ∈ (greedyAux dup n fuel (i + 1)
              (P ++ i :: matchCandidates dup n i P)).bind id ↔
              (i + 1 ≤ x ∧ x ∉ P ++ i :: matchCandidates dup n i P) ∧ x < n := by
            intro x
            rw [hperm.mem_iff, List.mem_filter, List.mem_range]
            simp only [decide_eq_true_eq]
            tauto
          have hseedLe : ∀ x ∈ i :: matchCandidates dup n i P, i ≤ x ∧ x ∉ P ∧ x < n := by
            intro x hx
            rcases List.mem_cons.mp hx with h | h
            · subst h
              exact ⟨le_rfl, hip, hi⟩
            · obtain ⟨hxn, hxi, hxP, hdup⟩ := mem_matchCandidates.mp h
              refine ⟨?_, hxP, hxn⟩
              by_contra hlt
              push_neg at hlt
              have hfalse := hinv x hlt hxP i hi hip (fun hc => hxi hc.symm)
              rw [hsym] at hfalse
              rw [hfalse] at hdup
              exact absurd hdup (by simp)
          apply (List.perm_ext_iff_of_nodup ?_ hnodFilter).mpr
          · intro x
            rw [List.mem_append, List.mem_filter, List.mem_range, hmemRest]
            simp only [decide_eq_true_eq]
            constructor
            · rintro (hx | ⟨⟨hx1, hx2⟩, hx3⟩)
              · obtain ⟨h1, h2, h3⟩ := hseedLe x hx
                exact ⟨h3, h1, h2⟩
              · exact ⟨hx3, by omega, fun hc => hx2 (List.mem_append_left _ hc)⟩
            · rintro ⟨hxn, hxi, hxP⟩
              by_cases hxg : x ∈ i :: matchCandidates dup n i P
              · exact Or.inl hxg
              · refine Or.inr ⟨⟨?_, ?_⟩, hxn⟩
                · rcases Nat.lt_or_ge i x with h | h
                  · omega
                  · have : x = i := by omega
                    exact absurd (this ▸ List.mem_cons_self i _) hxg
                · intro hc
                  rcases List.mem_append.mp hc with h | h
                  · exact hxP h
                  · exact hxg h
          · rw [List.nodup_append]
            refine ⟨nodup_seedGroup dup n i P, hnodRest, ?_⟩
            intro x hx hx2
            exact ((hmemRest x).mp hx2).1.2 (List.mem_append_right _ hx)
        · rw [if_neg hg]
          have hM : matchCandidates dup n i P = [] := by
            have := List.length_eq_zero.mpr (rfl : ([] : List Nat) = [])
            cases hMc : matchCandidates dup n i P with
            | nil => rfl
            | cons a t =>
              rw [hMc] at hg
              simp at hg
          have hinv1 : greedyInv dup n (i + 1) P := by
            intro j hj hjP k hk hkP hkj
            rcases Nat.lt_succ_iff_lt_or_eq.mp hj with h | h
            · exact hinv j h hjP k hk hkP hkj
            · subst h
              cases hd : dup j k
              · rfl
              · have : k ∈ matchCandidates dup n j P :=
                  mem_matchCandidates.mpr ⟨hk, hkj, hkP, hd⟩
                rw [hM] at this
                simp at this
          have hperm := ih (i + 1) P (by omega) hinv1
          rw [bind_id_cons, hM, List.singleton_append]
          have hmemRest : ∀ x, x ∈ (greedyAux dup n fuel (i + 1) P).bind id ↔
              (i + 1 ≤ x ∧ x ∉ P) ∧ x < n := by
            intro x
            rw [hperm.mem_iff, List.mem_filter, List.mem_range]
            simp only [decide_eq_true_eq]
            tauto
          have hnodFilter : ((List.range n).filter fun k =>
              decide (i ≤ k ∧ k ∉ P)).Nodup := (List.nodup_range n).filter _
          apply (List.perm_ext_iff_of_nodup ?_ hnodFilter).mpr
          · intro x
            simp only [List.mem_cons, List.mem_filter, List.mem_range,
              decide_eq_true_eq, hmemRest]
            constructor
            · rintro (h | ⟨⟨h1, h2⟩, h3⟩)
              · subst h
                exact ⟨hi, le_rfl, hip⟩
              · exact ⟨h3, by omega, h2⟩
            · rintro ⟨hxn, hxi, hxP⟩
              by_cases hx : x = i
              · exact Or.inl hx
              · exact Or.inr ⟨⟨by omega, hxP⟩, hxn⟩
          · refine List.nodup_cons.mpr ⟨?_, hperm.nodup_iff.mpr ((List.nodup_range n).filter _)⟩
            intro hc
            have := ((hmemRest i).mp hc).1.1
            omega
    · rw [if_neg hi]
      have hnil : ((List.range n).filter fun k => decide (i ≤ k ∧ k ∉ P)) = [] := by
        rw [List.filter_eq_nil_iff]
        intro k hk
        have := List.mem_range.mp hk
        simp only [decide_eq_true_eq, not_and]
        intro hik
        omega
      rw [hnil]
      rfl

/-- The index groups of a bucket partition the bucket's index range. -/
theorem greedyGroups_perm_range (dup : Nat → Nat → Bool) (n : Nat)
    (hsym : ∀ a b, dup a b = dup b a) :
    ((greedyGroups dup n).bind id).Perm (List.range n) := by
  have h := greedyAux_partition dup n hsym n 0 [] (by omega)
    (fun j hj => absurd hj (Nat.not_lt_zero j))
  rwa [List.filter_eq_self.mpr (by intro a _; simp)] at h

/-- Joining a cons of buckets is the head bucket followed by the rest. -/
theorem join_cons_eq {α : Type} (x : List α) (xs : List (List α)) :
    (x :: xs).join = x ++ xs.join := rfl

/-- Binding a cons, for an arbitrary group-to-members function. -/
theorem bind_cons_eq {α β : Type} (g : α → List β) (x : α) (xs : List α) :
    (x :: xs).bind g = g x ++ xs.bind g := rfl

/-- Binding an append splits. -/
theorem bind_append_eq {α β : Type} (g : α → List β) :
    ∀ l1 l2 : List α, (l1 ++ l2).bind g = l1.bind g ++ l2.bind g := by
  intro l1 l2
  induction l1 with
  | nil => rfl
  | cons a t ih =>
    rw [List.cons_append, bind_cons_eq, bind_cons_eq, ih, List.append_assoc]

/-- Binding after mapping composes. -/
theorem bind_map_comp {α β γ : Type} (f : α → β) (g : β → List γ) :
    ∀ l : List α, (l.map f).bind g = l.bind fun a => g (f a) := by
  intro l
  induction l with
  | nil => rfl
  | cons a t ih =>
    rw [List.map_cons, bind_cons_eq, bind_cons_eq, ih]

/-- Pointwise permutations of the pieces permute the bind. -/
theorem bind_perm_pointwise {α β : Type} {g h : α → List β} :
    ∀ l : List α, (∀ a ∈ l, (g a).Perm (h a)) → (l.bind g).Perm (l.bind h) := by
  intro l
  induction l with
  | nil => intro _; rfl
  | cons a t ih =>
    intro hp
    rw [bind_cons_eq, bind_cons_eq]
    exact (hp a (List.mem_cons_self a t)).append
      (ih fun x hx => hp x (List.mem_cons_of_mem a hx))

/-- Mapping inside a bind is mapping the bind. -/
theorem bind_map_inside {α β γ : Type} (f : β → γ) (g : α → List β) :
    ∀ l : List α, (l.bind fun a => (g a).map f) = (l.bind g).map f := by
  intro l
  induction l with
  | nil => rfl
  | cons a t ih =>
    rw [bind_cons_eq, bind_cons_eq, ih, List.map_append]

/-- Binds agree when the functions agree on the list. -/
theorem bind_congr_mem {α β : Type} {g h : α → List β} :
    ∀ l : List α, (∀ a ∈ l, g a = h a) → l.bind g = l.bind h := by
  intro l
  induction l with
  | nil => intro _; rfl
  | cons a t ih =>
    intro hp
    rw [bind_cons_eq, bind_cons_eq, hp a (List.mem_cons_self a t),
      ih fun x hx => hp x (List.mem_cons_of_mem a hx)]

/-- The default head of a non-empty list is its member. -/
theorem headD_mem {α : Type} [Inhabited α] {l : List α} (h : l ≠ []) :
    l.headD default ∈ l := by
  cases l with
  | nil => exact absurd rfl h
  | cons a t => exact List.mem_cons_self a t

/-- Moving a member to the front against the filter of the others is a
permutation, on lists without duplicates. -/
theorem cons_filter_ne_perm {α : Type} [DecidableEq α] (l : List α) (u : α)
    (hnd : l.Nodup) (hu : u ∈ l) :
    (u :: l.filter fun q => q ≠ u).Perm l := by
  have hnodL : (u :: l.filter fun q => q ≠ u).Nodup := by
    refine List.nodup_cons.mpr ⟨?_, hnd.filter _⟩
    intro hc
    have := (List.mem_filter.mp hc).2
    simp at this
  apply (List.perm_ext_iff_of_nodup hnodL hnd).mpr
  intro x
  simp only [List.mem_cons, List.mem_filter, decide_eq_true_eq]
  constructor
  · rintro (h | ⟨h, _⟩)
    · subst h
      exact hu
    · exact h
  · intro hx
    by_cases h : x = u
    · exact Or.inl h
    · exact Or.inr ⟨hx, h⟩

/-- The abstract-based selector returns a member of the group. -/
theorem selectPairByAbstract_mem {pairs : List (Citation × Nat)} (h : pairs ≠ []) :
    selectPairByAbstract pairs ∈ pairs := by
  unfold selectPairByAbstract
  by_cases hlen : pairs.length = 1
  · rw [if_pos hlen]
    exact headD_mem h
  · rw [if_neg hlen]
    cases hab : pairs.filter (fun q => q.1.abstract_text.isSome) with
    | nil => exact headD_mem h
    | cons q qs =>
      cases qs with
      | nil =>
        have hq : q ∈ pairs.filter (fun q => q.1.abstract_text.isSome) := by
          rw [hab]
          exact List.mem_cons_self q []
        exact List.mem_of_mem_filter hq
      | cons q2 qs2 =>
        cases hf : (q :: q2 :: qs2).find? (fun r => hasNonEmptyDoi r.1) with
        | some r =>
          have hr : r ∈ pairs.filter (fun q => q.1.abstract_text.isSome) := by
            rw [hab]
            exact List.mem_of_find?_eq_some hf
          simp only [hf, Option.getD_some]
          exact List.mem_of_mem_filter hr
        | none =>
          simp only [hf, Option.getD_none]
          have hq : q ∈ pairs.filter (fun q => q.1.abstract_text.isSome) := by
            rw [hab]
            exact List.mem_cons_self q _
          exact List.mem_of_mem_filter hq

/-- The preference scan returns a member of the group. -/
theorem findPreferredPair_mem {srcMap : Nat → Option (Option String)}
    {pairs : List (Citation × Nat)} {q : Citation × Nat} :
    ∀ {prefs : List String}, findPreferredPair srcMap pairs prefs = some q → q ∈ pairs := by
  intro prefs
  induction prefs with
  | nil => intro h; simp [findPreferredPair] at h
  | cons p ps ih =>
    intro h
    unfold findPreferredPair at h
    cases hf : pairs.find? (fun r => srcMap r.2 == some (some p)) with
    | some r =>
      rw [hf] at h
      obtain rfl : r = q := Option.some.inj h
      exact List.mem_of_find?_eq_some hf
    | none =>
      rw [hf] at h
      exact ih h

/-- The full selector returns a member of the group. -/
theorem selectPairWithSources_mem {prefs : List String}
    {srcMap : Nat → Option (Option String)} {pairs : List (Citation × Nat)}
    (h : pairs ≠ []) : selectPairWithSources prefs srcMap pairs ∈ pairs := by
  unfold selectPairWithSources
  by_cases hlen : pairs.length = 1
  · rw [if_pos hlen]
    exact headD_mem h
  · rw [if_neg hlen]
    cases hf : (if prefs.isEmpty then none else findPreferredPair srcMap pairs prefs) with
    | some q =>
      simp only [hf]
      by_cases hp : prefs.isEmpty
      · rw [if_pos hp] at hf
        exact absurd hf (by simp)
      · rw [if_neg hp] at hf
        exact findPreferredPair_mem hf
    | none =>
      simp only [hf]
      exact selectPairByAbstract_mem h

/-- The group pairs project to the group's member citations. -/
theorem groupPairs_map_fst (pre : List PreprocessedCitation) (ig : List Nat) :
    (groupPairs pre ig).map Prod.fst = ig.map fun k => (pre.getD k default).original := by
  unfold groupPairs
  rw [List.map_map]
  rfl

/-- A built group lists exactly its members: the unique followed by the
duplicates is a permutation of the group's citations (one occurrence per
claimed index). -/
theorem buildGroup_members_perm (prefs : List String)
    (srcMap : Nat → Option (Option String)) (pre : List PreprocessedCitation)
    (ig : List Nat) (hnd : ig.Nodup) (hne : ig ≠ []) :
    ((buildGroup prefs srcMap pre ig).unique ::
        (buildGroup prefs srcMap pre ig).duplicates).Perm
      (ig.map fun k => (pre.getD k default).original) := by
  have hpne : groupPairs pre ig ≠ [] := by
    intro hc
    exact hne (List.map_eq_nil.mp hc)
  have hform : ∀ q ∈ groupPairs pre ig, q = ((pre.getD q.2 default).original, q.2) := by
    intro q hq
    obtain ⟨k, _, rfl⟩ := List.mem_map.mp hq
    rfl
  have hpnd : (groupPairs pre ig).Nodup := by
    unfold groupPairs
    exact hnd.map fun a b hab => congrArg Prod.snd hab
  unfold buildGroup
  by_cases hlen : 1 < (groupPairs pre ig).length
  · simp only [if_pos hlen]
    have hum : selectPairWithSources prefs srcMap (groupPairs pre ig) ∈ groupPairs pre ig :=
      selectPairWithSources_mem hpne
    have hfe : ((groupPairs pre ig).filter fun q =>
        q.2 ≠ (selectPairWithSources prefs srcMap (groupPairs pre ig)).2) =
        (groupPairs pre ig).filter fun q =>
          q ≠ selectPairWithSources prefs srcMap (groupPairs pre ig) := by
      apply List.filter_congr
      intro q hq
      simp only [decide_eq_decide]
      constructor
      · intro hq2 hqu
        exact hq2 (by rw [hqu])
      · intro hqu hq2
        apply hqu
        rw [hform q hq, hform _ hum, hq2]
    rw [hfe, ← groupPairs_map_fst]
    exact (cons_filter_ne_perm (groupPairs pre ig)
      (selectPairWithSources prefs srcMap (groupPairs pre ig)) hpnd hum).map Prod.fst
  · simp only [if_neg hlen]
    have hlen1 : (groupPairs pre ig).length = 1 := by
      have h0 := List.length_pos.mpr hpne
      omega
    obtain ⟨q, hq⟩ := List.length_eq_one.mp hlen1
    rw [← groupPairs_map_fst, hq]
    rfl

/-- A successful preprocess keeps the original citation. -/
theorem preprocessCitation_original {c : Citation} {p : PreprocessedCitation}
    (h : preprocessCitation c = .ok p) : p.original = c := by
  unfold preprocessCitation at h
  cases h2 : normalizeString (convertUnicodeString c.title) with
  | none =>
    rw [h2] at h
    simp at h
  | some t =>
    rw [h2] at h
    obtain rfl := Except.ok.inj h
    rfl

/-- A successful bucket preprocess maps back to the bucket. -/
theorem preprocessAll_originals :
    ∀ {cs : List Citation} {pre : List PreprocessedCitation},
      preprocessAll cs = .ok pre → pre.map (fun p => p.original) = cs := by
  intro cs
  induction cs with
  | nil =>
    intro pre h
    obtain rfl := Except.ok.inj h
    rfl
  | cons c cs' ih =>
    intro pre h
    unfold preprocessAll at h
    cases hc : preprocessCitation c with
    | error e =>
      rw [hc] at h
      simp at h
    | ok p =>
      rw [hc] at h
      cases hcs : preprocessAll cs' with
      | error e =>
        rw [hcs] at h
        simp at h
      | ok ps =>
        rw [hcs] at h
        obtain rfl := Except.ok.inj h
        rw [List.map_cons, preprocessCitation_original hc, ih hcs]

/-- Indexing the range by getD reproduces the list. -/
theorem map_getD_range {α : Type} [Inhabited α] :
    ∀ l : List α, (List.range l.length).map (fun k => l.getD k default) = l := by
  intro l
  induction l with
  | nil => rfl
  | cons a t ih =>
    rw [List.length_cons, List.range_succ_eq_map, List.map_cons, List.map_map]
    have hcomp : ((fun k => (a :: t).getD k default) ∘ Nat.succ) =
        fun k => t.getD k default := by
      funext k
      rfl
    rw [hcomp, ih]
    rfl

/-- A successful bucket run lists every bucket citation exactly once across
its groups (unique plus duplicates), provided the two similarity metrics
are symmetric. -/
theorem processCitationGroup_ok_perm {jaro jw : String → String → ℚ}
    (hj : ∀ s t, jaro s t = jaro t s) (hw : ∀ s t, jw s t = jw t s)
    {prefs : List String} {srcMap : Nat → Option (Option String)}
    {citations : List Citation} {gs : List DuplicateGroup}
    (h : processCitationGroupWithSources jaro jw prefs srcMap citations = .ok gs) :
    (gs.bind fun g => g.unique :: g.duplicates).Perm citations := by
  unfold processCitationGroupWithSources at h
  cases hpre : preprocessAll citations with
  | error e =>
    rw [hpre] at h
    simp at h
  | ok pre =>
    rw [hpre] at h
    obtain rfl := (Except.ok.inj h).symm
    have hsym : ∀ a b, (fun i j =>
        isDuplicatePair jaro jw (pre.getD i default) (pre.getD j default)) a b =
        (fun i j => isDuplicatePair jaro jw (pre.getD i default) (pre.getD j default)) b a :=
      fun a b => isDuplicatePair_comm jaro jw hj hw _ _
    have hrange := greedyGroups_perm_range _ pre.length hsym
    have hshape := greedyAux_groups_shape
      (fun i j => isDuplicatePair jaro jw (pre.getD i default) (pre.getD j default))
      pre.length pre.length 0 []
    rw [bind_map_comp]
    have hpoint := bind_perm_pointwise (g := fun ig =>
        (buildGroup prefs srcMap pre ig).unique :: (buildGroup prefs srcMap pre ig).duplicates)
      (h := fun ig => ig.map fun k => (pre.getD k default).original)
      (greedyGroups (fun i j =>
        isDuplicatePair jaro jw (pre.getD i default) (pre.getD j default)) pre.length)
      (fun ig hig => by
        obtain ⟨h1, h2, _⟩ := hshape ig hig
        exact buildGroup_members_perm prefs srcMap pre ig h2 h1)
    refine hpoint.trans ?_
    rw [show (fun ig : List Nat => ig.map fun k => (pre.getD k default).original) =
        (fun ig : List Nat => (id ig).map fun k => (pre.getD k default).original) from rfl,
      bind_map_inside]
    have hmapped := hrange.map fun k => (pre.getD k default).original
    refine hmapped.trans ?_
    have h1 : (List.range pre.length).map (fun k => (pre.getD k default).original) =
        (List.range pre.length).map ((fun p : PreprocessedCitation => p.original) ∘
          (fun k => pre.getD k default)) := rfl
    rw [h1, ← List.map_map, map_getD_range, preprocessAll_originals hpre]

/-- A successful sequential bucket fold lists exactly the joined buckets. -/
theorem processBucketList_ok_perm {jaro jw : String → String → ℚ}
    (hj : ∀ s t, jaro s t = jaro t s) (hw : ∀ s t, jw s t = jw t s)
    {prefs : List String} {srcMap : Nat → Option (Option String)} :
    ∀ {buckets : List (List Citation)} {gs : List DuplicateGroup},
      processBucketList jaro jw prefs srcMap buckets = .ok gs →
      (gs.bind fun g => g.unique :: g.duplicates).Perm buckets.join := by
  intro buckets
  induction buckets with
  | nil =>
    intro gs h
    obtain rfl := (Except.ok.inj h).symm
    rfl
  | cons b bs ih =>
    intro gs h
    unfold processBucketList at h
    cases h1 : processCitationGroupWithSources jaro jw prefs srcMap b with
    | error e =>
      rw [h1] at h
      simp at h
    | ok gs1 =>
      rw [h1] at h
      cases h2 : processBucketList jaro jw prefs srcMap bs with
      | error e =>
        rw [h2] at h
        simp at h
      | ok gs2 =>
        rw [h2] at h
        obtain rfl := (Except.ok.inj h).symm
        rw [join_cons_eq, bind_append_eq]
        exact (processCitationGroup_ok_perm hj hw h1).append (ih h2)

/-- The fueled key dedup produces no duplicate keys. -/
theorem nodup_dedupKeysAux :
    ∀ (fuel : Nat) (l : List Int), l.length ≤ fuel → (dedupKeysAux fuel l).Nodup := by
  intro fuel
  induction fuel with
  | zero =>
    intro l _
    exact List.nodup_nil
  | succ n ih =>
    intro l hl
    cases l with
    | nil => exact List.nodup_nil
    | cons y ys =>
      have hlen : (ys.filter fun z => z ≠ y).length ≤ n := by
        have := List.length_filter_le (fun z => decide (z ≠ y)) ys
        simp only [List.length_cons] at hl
        omega
      refine List.nodup_cons.mpr ⟨?_, ih _ hlen⟩
      intro hc
      have := (mem_dedupKeysAux n _ y hlen).mp hc
      have := (List.mem_filter.mp this).2
      simp at this

/-- Partitioning by a nodup list of keys covering every element is a
permutation of the original list. -/
theorem bucket_join_perm :
    ∀ (ys : List Int) (cs : List Citation), ys.Nodup →
      (∀ c ∈ cs, yearKey c ∈ ys) →
      (ys.bind fun y => cs.filter fun c => yearKey c == y).Perm cs := by
  intro ys
  induction ys with
  | nil =>
    intro cs _ hcov
    cases cs with
    | nil => rfl
    | cons c t => exact absurd (hcov c (List.mem_cons_self c t)) (by simp)
  | cons y ys' ih =>
    intro cs hnd hcov
    rw [bind_cons_eq]
    refine List.Perm.trans ?_ (List.filter_append_perm (fun c => yearKey c == y) cs)
    apply List.Perm.append_left
    have hrw : (ys'.bind fun y' => cs.filter fun c => yearKey c == y') =
        ys'.bind fun y' => (cs.filter fun c => !(yearKey c == y)).filter
          fun c => yearKey c == y' := by
      apply bind_congr_mem
      intro y' hy'
      rw [List.filter_filter]
      apply List.filter_congr
      intro c _
      have hyy : y' ≠ y := by
        intro hc
        subst hc
        exact (List.nodup_cons.mp hnd).1 hy'
      cases hk : yearKey c == y'
      · simp
      · have : yearKey c = y' := by simpa using hk
        simp [this, hyy]
    rw [hrw]
    refine ih _ (List.nodup_cons.mp hnd).2 ?_
    intro c hc
    obtain ⟨hcm, hcy⟩ := List.mem_filter.mp hc
    have := hcov c hcm
    rcases List.mem_cons.mp this with h | h
    · rw [h] at hcy
      simp at hcy
    · exact h

/-- The year buckets join to a permutation of the input. -/
theorem yearBuckets_join_perm (citations : List Citation) :
    (yearBuckets citations).join.Perm citations := by
  unfold yearBuckets
  show ((dedupKeys (citations.map yearKey)).bind
    fun y => citations.filter fun c => yearKey c == y).Perm citations
  apply bucket_join_perm
  · exact nodup_dedupKeysAux _ _ le_rfl
  · intro c hc
    exact mem_dedupKeys.mpr (List.mem_map.mpr ⟨c, hc, rfl⟩)

/-- A successful full run lists every input citation exactly once across the
returned groups, provided the two similarity metrics are symmetric. -/
theorem findDuplicates_ok_perm {jaro jw : String → String → ℚ}
    (hj : ∀ s t, jaro s t = jaro t s) (hw : ∀ s t, jw s t = jw t s)
    {config : DeduplicatorConfig} {citations : List Citation} {sources : List String}
    {gs : List DuplicateGroup}
    (h : findDuplicatesWithSources jaro jw config citations sources = .ok gs) :
    (gs.bind fun g => g.unique :: g.duplicates).Perm citations := by
  unfold findDuplicatesWithSources at h
  by_cases hemp : citations.isEmpty
  · rw [if_pos hemp] at h
    obtain rfl := (Except.ok.inj h).symm
    obtain rfl : citations = [] := List.isEmpty_iff.mp hemp
    rfl
  · rw [if_neg hemp] at h
    by_cases hlen : citations.length < sources.length
    · rw [if_pos hlen] at h
      simp at h
    · rw [if_neg hlen] at h
      cases hy : config.group_by_year
      · rw [hy, if_neg (by simp)] at h
        exact processCitationGroup_ok_perm hj hw h
      · rw [hy, if_pos rfl] at h
        exact (processBucketList_ok_perm hj hw h).trans (yearBuckets_join_perm citations)

/-- The constant-one similarity metric (trivially symmetric), for witnesses
that need matching titles. -/
def oneSim : String → String → ℚ := fun _ _ => 1

/-- First of two equal-DOI year-2020 citations. -/
def sampleDup1 : Citation :=
  { title := "Title 1", doi := some "10.1234/abc", journal := some "Journal 1",
    date := some ⟨2020, none, none⟩ }

/-- Second of two equal-DOI year-2020 citations, carrying an abstract. -/
def sampleDup2 : Citation :=
  { title := "Title 1", doi := some "10.1234/abc", journal := some "Journal 1",
    date := some ⟨2020, none, none⟩, abstract_text := some "Abstract" }

/-- A year-2019 citation that matches nobody in its bucket. -/
def sampleOther : Citation :=
  { title := "Title 2", doi := some "10.1234/def", journal := some "Journal 2",
    date := some ⟨2019, none, none⟩ }

/-- C2: whenever deduplication succeeds, every input citation appears
exactly once across the returned groups - the multiset of all group members
(each group's unique followed by its duplicates) is a permutation of the
input, at bucket level and at the entry-point level; per emitted group, the
unique and the duplicates are exactly the group's claimed members, the
unique occurring once and removed once from the duplicates.  Symmetry of
the two external strsim metrics is what keeps an unmarked singleton seed
from being claimed again by a later seed. -/
theorem C2_groups_cover_input (jaro jw : String → String → ℚ)
    (hj : ∀ s t, jaro s t = jaro t s) (hw : ∀ s t, jw s t = jw t s) :
    (∀ (prefs : List String) (srcMap : Nat → Option (Option String))
        (citations : List Citation) (gs : List DuplicateGroup),
      processCitationGroupWithSources jaro jw prefs srcMap citations = .ok gs →
      (gs.bind fun g => g.unique :: g.duplicates).Perm citations) ∧
    (∀ (config : DeduplicatorConfig) (citations : List Citation)
        (sources : List String) (gs : List DuplicateGroup),
      findDuplicatesWithSources jaro jw config citations sources = .ok gs →
      (gs.bind fun g => g.unique :: g.duplicates).Perm citations) ∧
    ∀ (prefs : List String) (srcMap : Nat → Option (Option String))
        (pre : List PreprocessedCitation) (ig : List Nat), ig.Nodup → ig ≠ [] →
      ((buildGroup prefs srcMap pre ig).unique ::
          (buildGroup prefs srcMap pre ig).duplicates).Perm
        (ig.map fun k => (pre.getD k default).original) :=
  ⟨fun _ _ _ _ h => processCitationGroup_ok_perm hj hw h,
   fun _ _ _ _ h => findDuplicates_ok_perm hj hw h,
   fun prefs srcMap pre ig hnd hne => buildGroup_members_perm prefs srcMap pre ig hnd hne⟩

/-- Witness for C2: a concrete successful run on three citations (two
equal-DOI duplicates and one singleton) whose groups list the input exactly
once. -/
theorem C2_witness :
    (([⟨sampleDup2, [sampleDup1]⟩, ⟨sampleOther, []⟩] : List DuplicateGroup).bind
      fun g => g.unique :: g.duplicates).Perm [sampleDup1, sampleDup2, sampleOther] :=
  (C2_groups_cover_input oneSim oneSim (fun _ _ => rfl) (fun _ _ => rfl)).2.1
    defaultDeduplicatorConfig [sampleDup1, sampleDup2, sampleOther] []
    [⟨sampleDup2, [sampleDup1]⟩, ⟨sampleOther, []⟩] rfl

/-- Every member of a built group comes from the bucket. -/
theorem processCitationGroup_ok_members {jaro jw : String → String → ℚ}
    {prefs : List String} {srcMap : Nat → Option (Option String)}
    {citations : List Citation} {gs : List DuplicateGroup}
    (h : processCitationGroupWithSources jaro jw prefs srcMap citations = .ok gs) :
    ∀ g ∈ gs, ∀ a ∈ g.unique :: g.duplicates, a ∈ citations := by
  unfold processCitationGroupWithSources at h
  cases hpre : preprocessAll citations with
  | error e =>
    rw [hpre] at h
    simp at h
  | ok pre =>
    rw [hpre] at h
    obtain rfl := (Except.ok.inj h).symm
    intro g hg a ha
    obtain ⟨ig, hig, rfl⟩ := List.mem_map.mp hg
    obtain ⟨h1, h2, h3⟩ := greedyAux_groups_shape _ pre.length pre.length 0 [] ig hig
    have hperm := buildGroup_members_perm prefs srcMap pre ig h2 h1
    obtain ⟨k, hk, rfl⟩ := List.mem_map.mp (hperm.mem_iff.mp ha)
    have hmem : pre.getD k default ∈ pre := by
      rw [List.getD_eq_getElem?_getD, List.getElem?_eq_getElem (h3 k hk)]
      exact List.getElem_mem _
    rw [← preprocessAll_originals hpre]
    exact List.mem_map_of_mem _ hmem

/-- Every output group of the bucket fold comes from one of the buckets. -/
theorem processBucketList_ok_members {jaro jw : String → String → ℚ}
    {prefs : List String} {srcMap : Nat → Option (Option String)} :
    ∀ {buckets : List (List Citation)} {gs : List DuplicateGroup},
      processBucketList jaro jw prefs srcMap buckets = .ok gs →
      ∀ g ∈ gs, ∃ b ∈ buckets, ∃ gs1,
        processCitationGroupWithSources jaro jw prefs srcMap b = .ok gs1 ∧ g ∈ gs1 := by
  intro buckets
  induction buckets with
  | nil =>
    intro gs h
    obtain rfl := (Except.ok.inj h).symm
    intro g hg
    simp at hg
  | cons b bs ih =>
    intro gs h
    unfold processBucketList at h
    cases h1 : processCitationGroupWithSources jaro jw prefs srcMap b with
    | error e =>
      rw [h1] at h
      simp at h
    | ok gs1 =>
      rw [h1] at h
      cases h2 : processBucketList jaro jw prefs srcMap bs with
      | error e =>
        rw [h2] at h
        simp at h
      | ok gs2 =>
        rw [h2] at h
        obtain rfl := (Except.ok.inj h).symm
        intro g hg
        rcases List.mem_append.mp hg with hmem | hmem
        · exact ⟨b, List.mem_cons_self b bs, gs1, h1, hmem⟩
        · obtain ⟨b0, hb0, gsx, hgsx, hgx⟩ := ih h2 g hmem
          exact ⟨b0, List.mem_cons_of_mem b hb0, gsx, hgsx, hgx⟩

/-- C6: with group_by_year enabled, groups are formed inside year buckets
(unknown years in the sentinel-0 bucket), so all members of any returned
group share the same year key, and two citations with differing present
years are never grouped together. -/
theorem C6_year_isolation (jaro jw : String → String → ℚ)
    (config : DeduplicatorConfig) (citations : List Citation)
    (sources : List String) (gs : List DuplicateGroup)
    (hy : config.group_by_year = true)
    (h : findDuplicatesWithSources jaro jw config citations sources = .ok gs) :
    ∀ g ∈ gs, ∀ a ∈ g.unique :: g.duplicates, ∀ b ∈ g.unique :: g.duplicates,
      yearKey a = yearKey b ∧
      ∀ ya yb, getCitationYear a = some ya → getCitationYear b = some yb → ya = yb := by
  intro g hg a ha b hb
  unfold findDuplicatesWithSources at h
  by_cases hemp : citations.isEmpty
  · rw [if_pos hemp] at h
    obtain rfl := (Except.ok.inj h).symm
    simp at hg
  · rw [if_neg hemp] at h
    by_cases hlen : citations.length < sources.length
    · rw [if_pos hlen] at h
      simp at h
    · rw [if_neg hlen, hy, if_pos rfl] at h
      obtain ⟨bk, hbk, gs1, hgs1, hmem⟩ := processBucketList_ok_members h g hg
      unfold yearBuckets at hbk
      obtain ⟨y, _, rfl⟩ := List.mem_map.mp hbk
      have hmema := processCitationGroup_ok_members hgs1 g hmem a ha
      have hmemb := processCitationGroup_ok_members hgs1 g hmem b hb
      have hya : yearKey a = y := by simpa using (List.mem_filter.mp hmema).2
      have hyb : yearKey b = y := by simpa using (List.mem_filter.mp hmemb).2
      have hkey : yearKey a = yearKey b := by rw [hya, hyb]
      refine ⟨hkey, ?_⟩
      intro ya yb hga hgb
      unfold yearKey at hkey
      rw [hga, hgb] at hkey
      simpa using hkey

/-- Witness for C6 at the concrete three-citation run: the 2020 group's two
members carry the same year key. -/
theorem C6_witness :
    yearKey sampleDup2 = yearKey sampleDup1 ∧
      ∀ ya yb, getCitationYear sampleDup2 = some ya →
        getCitationYear sampleDup1 = some yb → ya = yb :=
  C6_year_isolation oneSim oneSim defaultDeduplicatorConfig
    [sampleDup1, sampleDup2, sampleOther] []
    [⟨sampleDup2, [sampleDup1]⟩, ⟨sampleOther, []⟩] rfl rfl
    ⟨sampleDup2, [sampleDup1]⟩ (by decide) sampleDup2 (by decide) sampleDup1 (by decide)
